import Mathlib

/-!
Verification development for `app/management/commands/process_documents.py`
of the AI_powered_DB repository.

The command walks a directory, extracts text from `.docx`/`.pdf` files,
asks a local LLM for a JSON record, and reconciles that record into a
Django store (a `Project` row plus name-keyed lookup entities and
relation sets).  We shallowly embed the reconciliation and orchestration
logic: JSON values are the inductive `Json`, the Django store is the
explicit `Store` record, Python truthiness and iteration are `truthy`
and `pyIter`, and stdout/stderr writes are tracked as abstract `Msg`
values.  External collaborators (the document readers, the HTTP stack,
`json.loads`) are oracle parameters.
-/

/-- A JSON value, as produced by `json.loads` (numbers restricted to
integers, which is all the claims need). -/
inductive Json where
  | null
  | bool (b : Bool)
  | num (n : Int)
  | str (s : String)
  | arr (l : List Json)
  | obj (kvs : List (String × Json))
deriving Repr

namespace Json

mutual
/-- Structural equality test on `Json` (used only to obtain decidable
equality; Python/DB equality on the embedded values). -/
def beq : Json → Json → Bool
  | .null, .null => true
  | .bool a, .bool b => a == b
  | .num a, .num b => a == b
  | .str a, .str b => a == b
  | .arr a, .arr b => beqList a b
  | .obj a, .obj b => beqObj a b
  | _, _ => false
def beqList : List Json → List Json → Bool
  | [], [] => true
  | x :: xs, y :: ys => beq x y && beqList xs ys
  | _, _ => false
def beqObj : List (String × Json) → List (String × Json) → Bool
  | [], [] => true
  | (k, v) :: xs, (k2, v2) :: ys => k == k2 && beq v v2 && beqObj xs ys
  | _, _ => false
end

mutual
theorem beq_iff : ∀ a b, beq a b = true ↔ a = b
  | .null, b => by cases b <;> simp [beq]
  | .bool x, b => by cases b <;> simp [beq]
  | .num x, b => by cases b <;> simp [beq]
  | .str x, b => by cases b <;> simp [beq]
  | .arr l, b => by
      cases b <;> simp [beq]
      exact beqList_iff l _
  | .obj o, b => by
      cases b <;> simp [beq]
      exact beqObj_iff o _
theorem beqList_iff : ∀ a b, beqList a b = true ↔ a = b
  | [], b => by cases b <;> simp [beqList]
  | x :: xs, b => by
      cases b with
      | nil => simp [beqList]
      | cons y ys => simp [beqList, beq_iff x y, beqList_iff xs ys]
theorem beqObj_iff : ∀ a b, beqObj a b = true ↔ a = b
  | [], b => by cases b <;> simp [beqObj]
  | (k, v) :: xs, b => by
      cases b with
      | nil => simp [beqObj]
      | cons kv ys =>
          obtain ⟨k2, v2⟩ := kv
          simp [beqObj, beq_iff v v2, beqObj_iff xs ys, and_assoc]
end

instance : DecidableEq Json := fun a b =>
  decidable_of_iff (beq a b = true) (beq_iff a b)

end Json

/-- Python truthiness (`if not x` / walrus `if x := ...`) of a JSON value:
`None`, `False`, `0`, `""`, `[]` and `{}` are falsy. -/
def truthy : Json → Bool
  | .null => false
  | .bool b => b
  | .num n => n != 0
  | .str s => s != ""
  | .arr l => !l.isEmpty
  | .obj kvs => !kvs.isEmpty

/-- Python `dict.get(k)` on a decoded JSON object: `none` models the
`None` default for a missing key. -/
def jget (kvs : List (String × Json)) (k : String) : Option Json :=
  (kvs.find? (fun kv => kv.1 == k)).map (fun kv => kv.2)

/-- Python iteration `for item in v` over a JSON value: lists yield their
elements, strings their one-character substrings, dicts their keys;
`None`, booleans and numbers are not iterable (`TypeError`, i.e. `none`). -/
def pyIter : Json → Option (List Json)
  | .arr l => some l
  | .str s => some (s.data.map (fun c => .str (String.mk [c])))
  | .obj kvs => some (kvs.map (fun kv => .str kv.1))
  | _ => none

/-- A `Project` row.  `project_id` is the unique business key; the three
single-valued references hold the (unique) name of the referenced lookup
row; the five relation fields hold the names linked through the
many-to-many tables.  Values are raw `Json` because the command passes
extracted values to the ORM unvalidated. -/
structure Project where
  project_id : Json
  project_name : Json
  project_status : Json
  sponsor : Option Json
  responsible_party : Option Json
  route_of_admin : Option Json
  deliverables : List Json
  therapeutic_areas : List Json
  ingredient_categories : List Json
  ingredients : List Json
  demographics : List Json
deriving Repr, DecidableEq

/-- The committed database state: the `Project` table plus the eight
name-keyed lookup tables (each a list of the names created so far,
in creation order; names are unique by construction of get-or-create). -/
structure Store where
  projects : List Project
  sponsors : List Json
  deliverables : List Json
  therapeutic_areas : List Json
  ingredient_categories : List Json
  ingredients : List Json
  responsible_parties : List Json
  routes_of_admin : List Json
  demographics : List Json
deriving Repr, DecidableEq

def emptyStore : Store :=
  { projects := [], sponsors := [], deliverables := [], therapeutic_areas := [],
    ingredient_categories := [], ingredients := [], responsible_parties := [],
    routes_of_admin := [], demographics := [] }

/-- Django `Model.objects.get_or_create(name=v)` on a lookup table:
find the row with that exact name, else append it. -/
def getOrCreateName (tbl : List Json) (v : Json) : List Json :=
  if v ∈ tbl then tbl else tbl ++ [v]

/-- Django many-to-many `.add(item)`: a no-op when the link already
exists. -/
def m2mAdd (rel : List Json) (v : Json) : List Json :=
  if v ∈ rel then rel else rel ++ [v]

/-- `Project.objects.filter(project_id=pid)` lookup inside
`get_or_create`. -/
def findProject (s : Store) (pid : Json) : Option Project :=
  s.projects.find? (fun q => q.project_id == pid)

/-- `project.save()` / the immediate effect of relation operations:
replace the row with the same `project_id`. -/
def updateProject (s : Store) (p : Project) : Store :=
  { s with projects := s.projects.map (fun q => if q.project_id = p.project_id then p else q) }

/-- Lines 156–158: `project.project_name = extracted_data.get('project_name',
project.project_name)` and likewise for `project_status` — a key that is
present (even with a `null` value) overwrites, a missing key keeps the
current value. -/
def applyScalar (d : List (String × Json)) (p : Project) : Project :=
  { p with project_name := (jget d "project_name").getD p.project_name,
           project_status := (jget d "project_status").getD p.project_status }

/-- One single-valued reference block (lines 163–175):
`if name := extracted_data.get(key): obj, _ = M.objects.get_or_create(name=name);
project.ref = obj`.  Returns the new reference and the new lookup table. -/
def fkStep (val : Option Json) (tbl : List Json) (cur : Option Json) :
    Option Json × List Json :=
  match val with
  | some v => if truthy v then (some v, getOrCreateName tbl v) else (cur, tbl)
  | none => (cur, tbl)

/-- Selector for the five many-to-many relations, processed in source
order (lines 182–214). -/
inductive M2MField where
  | deliverables | therapeuticAreas | ingredientCategories | ingredients | demographics
deriving Repr, DecidableEq, Fintype

def relKey : M2MField → String
  | .deliverables => "deliverables"
  | .therapeuticAreas => "therapeutic_areas"
  | .ingredientCategories => "ingredient_categories"
  | .ingredients => "ingredients"
  | .demographics => "demographics"

def relSet (r : M2MField) (p : Project) : List Json :=
  match r with
  | .deliverables => p.deliverables
  | .therapeuticAreas => p.therapeutic_areas
  | .ingredientCategories => p.ingredient_categories
  | .ingredients => p.ingredients
  | .demographics => p.demographics

def setRel (r : M2MField) (p : Project) (l : List Json) : Project :=
  match r with
  | .deliverables => { p with deliverables := l }
  | .therapeuticAreas => { p with therapeutic_areas := l }
  | .ingredientCategories => { p with ingredient_categories := l }
  | .ingredients => { p with ingredients := l }
  | .demographics => { p with demographics := l }

def relTbl (r : M2MField) (s : Store) : List Json :=
  match r with
  | .deliverables => s.deliverables
  | .therapeuticAreas => s.therapeutic_areas
  | .ingredientCategories => s.ingredient_categories
  | .ingredients => s.ingredients
  | .demographics => s.demographics

def setTbl (r : M2MField) (s : Store) (l : List Json) : Store :=
  match r with
  | .deliverables => { s with deliverables := l }
  | .therapeuticAreas => { s with therapeutic_areas := l }
  | .ingredientCategories => { s with ingredient_categories := l }
  | .ingredients => { s with ingredients := l }
  | .demographics => { s with demographics := l }

/-- The value used for one many-to-many block:
`extracted_data.get(key, [])`. -/
def m2mVal (d : List (String × Json)) (key : String) : Json :=
  (jget d key).getD (.arr [])

/-- One many-to-many block body (e.g. lines 182–186): when the value is
truthy, `project.rel.clear()` runs first, then the value is iterated and
each item is get-or-created and added.  The `Bool` is `true` when the
iteration raises (`TypeError` on a truthy non-iterable) — in that case
the relation has already been cleared.  Returns
(raised, new lookup table, new relation set). -/
def applyM2M (val : Json) (tbl rel : List Json) : Bool × List Json × List Json :=
  if truthy val then
    match pyIter val with
    | none => (true, tbl, [])
    | some items =>
        let res := items.foldl
          (fun (acc : List Json × List Json) v =>
            (getOrCreateName acc.1 v, m2mAdd acc.2 v)) (tbl, [])
        (false, res.1, res.2)
  else (false, tbl, rel)

/-- One many-to-many block applied to the threaded project and store;
relation operations hit the database immediately. -/
def m2mStep (d : List (String × Json)) (r : M2MField) (p : Project) (s : Store) :
    Bool × Project × Store :=
  let res := applyM2M (m2mVal d (relKey r)) (relTbl r s) (relSet r p)
  let p2 := setRel r p res.2.2
  (res.1, p2, updateProject (setTbl r s res.2.1) p2)

/-- The five many-to-many blocks in source order; a raise aborts the
remaining blocks (the exception propagates to the `except` at line 218).
Returns (raised, in-memory project, final store). -/
def runM2Ms (d : List (String × Json)) : List M2MField → Project → Store → Bool × Project × Store
  | [], p, s => (false, p, s)
  | r :: rs, p, s =>
      let res := m2mStep d r p s
      if res.1 then (true, res.2.1, res.2.2) else runM2Ms d rs res.2.1 res.2.2

def relOrder : List M2MField :=
  [.deliverables, .therapeuticAreas, .ingredientCategories, .ingredients, .demographics]

/-- Per-document outcome, as reported by the command's writes. -/
inductive Outcome where
  | created | updated | skippedNoId | skippedExists | failed
deriving Repr, DecidableEq

/-- Abstract stdout/stderr messages of the command, one constructor per
`self.stdout.write`/`self.stderr.write` call site. -/
inductive Msg where
  | startingRun
  | processingDocx
  | processingPdf
  | extracting
  | extractionFailed
  | skippedMissingProjectId
  | createdProject
  | updatingExistingProject
  | skippedExistingProject
  | successfullySaved
  | databaseError
  | processingComplete
deriving Repr, DecidableEq

structure DocResult where
  outcome : Outcome
  store : Store
  msgs : List Msg
deriving Repr, DecidableEq

/-- Lines 156–177: scalar fields, the three single-valued references,
then `project.save()`.  No raise point occurs inside this span in the
embedding, so it is packaged as one state change. -/
def savePhase (d : List (String × Json)) (p : Project) (s : Store) :
    Project × Store :=
  let p1 := applyScalar d p
  let sp := fkStep (jget d "sponsor_name") s.sponsors p1.sponsor
  let rp := fkStep (jget d "responsible_party") s.responsible_parties p1.responsible_party
  let rt := fkStep (jget d "route_of_admin") s.routes_of_admin p1.route_of_admin
  let p2 := { p1 with sponsor := sp.1, responsible_party := rp.1, route_of_admin := rt.1 }
  let s1 := { s with sponsors := sp.2, responsible_parties := rp.2, routes_of_admin := rt.2 }
  (p2, updateProject s1 p2)

/-- Lines 156–216: scalar fields, the three single-valued references,
`project.save()`, then the five many-to-many blocks. -/
def reconcile (d : List (String × Json)) (p : Project) (s : Store)
    (created : Bool) : DocResult :=
  let ps := savePhase d p s
  let res := runM2Ms d relOrder ps.1 ps.2
  if res.1 then ⟨.failed, res.2.2, [.databaseError]⟩
  else ⟨if created then .created else .updated, res.2.2, [.successfullySaved]⟩

/-- The row created by `Project.objects.get_or_create(project_id=...,
defaults={'project_name': extracted_data.get('project_name', '')})` when
no row with that id exists; unspecified fields take their model defaults
(modelled from the spec, §3/§4.4: empty name, empty status label, no
references, empty relation sets — `app/models.py` is not part of the
sources). -/
def newProject (d : List (String × Json)) (pid : Json) : Project :=
  { project_id := pid,
    project_name := (jget d "project_name").getD (.str ""),
    project_status := .str "",
    sponsor := none, responsible_party := none, route_of_admin := none,
    deliverables := [], therapeutic_areas := [],
    ingredient_categories := [], ingredients := [], demographics := [] }

/-- Lines 136–219: the per-document `try` block.  A non-object extraction
raises `AttributeError` at `.get` (caught at line 218); a falsy
`project_id` skips; `Project.objects.get_or_create` then decides
created/found; found without `--update` skips; otherwise `reconcile`
runs.  Note there is no rollback: the `except` keeps every change made
so far. -/
def processObj (update_existing : Bool) (d : List (String × Json))
    (s : Store) : DocResult :=
  match jget d "project_id" with
  | none => ⟨.skippedNoId, s, [.skippedMissingProjectId]⟩
  | some pid =>
      if truthy pid then
        match findProject s pid with
        | some p =>
            if update_existing then
              let res := reconcile d p s false
              ⟨res.outcome, res.store, .updatingExistingProject :: res.msgs⟩
            else ⟨.skippedExists, s, [.skippedExistingProject]⟩
        | none =>
            let p := newProject d pid
            let s1 := { s with projects := s.projects ++ [p] }
            let res := reconcile d p s1 true
            ⟨res.outcome, res.store, .createdProject :: res.msgs⟩
      else ⟨.skippedNoId, s, [.skippedMissingProjectId]⟩

/-- Dispatch on the shape of the extraction: a non-object raises
`AttributeError` at `.get` inside the `try` (line 138), caught at
line 218. -/
def processDoc (update_existing : Bool) (extracted : Json) (s : Store) : DocResult :=
  match extracted with
  | .obj d => processObj update_existing d s
  | _ => ⟨.failed, s, [.databaseError]⟩

/-- Python slicing `s[:n]` (by code point, like Lean characters). -/
def pyTake (s : String) (n : Nat) : String := String.mk (s.data.take n)

/-- Lines 44–90, `call_phi3_for_extraction`.  The HTTP stack is the
oracle `service`, applied to the first 8000 characters of the document
text (the prompt embeds `document_text[:8000]`); a `none` reply models a
request exception or non-2xx status.  `loads` models `json.loads`, with
`none` for a `JSONDecodeError`.  A reply without a `"response"` key
falls back to the string `"\x7b\x7d"` (the two-character text `{}`). -/
def call_phi3_for_extraction (loads : String → Option Json)
    (service : String → Option (List (String × String)))
    (document_text : String) : Option Json :=
  match service (pyTake document_text 8000) with
  | none => none
  | some response_data =>
      let json_string :=
        ((response_data.find? (fun kv => kv.1 == "response")).map (fun kv => kv.2)).getD
          "\x7b\x7d"
      loads json_string

/-- One directory entry: its filename and the result of the external
docx/pdf text extractor on it (`none` models a reader exception, which
the helpers turn into `None`). -/
structure BatchFile where
  filename : String
  rawText : Option String
deriving Repr

/-- ASCII lowering of one character; `str.lower()` restricted to the
ASCII range, which is all the extension dispatch compares. -/
def lowerChar (c : Char) : Char :=
  if 65 ≤ c.toNat ∧ c.toNat ≤ 90 then Char.ofNat (c.toNat + 32) else c

/-- Python `filename.lower()`. -/
def pyLower (s : String) : String := String.mk (s.data.map lowerChar)

/-- Python `s.endswith(suffix)`. -/
def pyEndsWith (s suffix : String) : Bool := suffix.data.isSuffixOf s.data

/-- Lines 115–219: the per-file loop body.  Extension dispatch, the
`if not raw_text: continue` guard, the extraction call, the
`if not extracted_data` guard, then the per-document `try` block. -/
def processFile (loads : String → Option Json)
    (service : String → Option (List (String × String)))
    (update_existing : Bool) (acc : Store × List Msg) (f : BatchFile) :
    Store × List Msg :=
  let isDocx := pyEndsWith (pyLower f.filename) ".docx"
  let isPdf := pyEndsWith (pyLower f.filename) ".pdf"
  if isDocx || isPdf then
    let msgs := acc.2 ++ [if isDocx then Msg.processingDocx else Msg.processingPdf]
    match f.rawText with
    | none => (acc.1, msgs)
    | some t =>
        if t = "" then (acc.1, msgs)
        else
          let msgs := msgs ++ [Msg.extracting]
          match call_phi3_for_extraction loads service t with
          | none => (acc.1, msgs ++ [Msg.extractionFailed])
          | some j =>
              if truthy j then
                let res := processDoc update_existing j acc.1
                (res.store, msgs ++ res.msgs)
              else (acc.1, msgs ++ [Msg.extractionFailed])
  else acc

/-- Lines 105–221, `Command.handle` after the directory-existence check:
the whole run is one `@transaction.atomic` unit, the loop visits the
listed files in order, and the final write is the constant
"Processing complete." message. -/
def handle (loads : String → Option Json)
    (service : String → Option (List (String × String)))
    (update_existing : Bool) (files : List BatchFile) (s : Store) :
    Store × List Msg :=
  let res := files.foldl (processFile loads service update_existing)
    (s, [Msg.startingRun])
  (res.1, res.2 ++ [Msg.processingComplete])

/-! ### Basic lemmas about get-or-create and the many-to-many loop -/

theorem mem_getOrCreateName (tbl : List Json) (v : Json) :
    v ∈ getOrCreateName tbl v := by
  unfold getOrCreateName
  split <;> simp_all

theorem getOrCreateName_of_mem {tbl : List Json} {v : Json} (h : v ∈ tbl) :
    getOrCreateName tbl v = tbl := by
  simp [getOrCreateName, h]

theorem mem_getOrCreateName_mono {tbl : List Json} {w : Json} (v : Json)
    (h : w ∈ tbl) : w ∈ getOrCreateName tbl v := by
  unfold getOrCreateName
  split <;> simp_all

theorem mem_foldl_getOrCreateName_mono {tbl : List Json} {w : Json}
    (l : List Json) (h : w ∈ tbl) : w ∈ l.foldl getOrCreateName tbl := by
  induction l generalizing tbl with
  | nil => simpa using h
  | cons x xs ih => exact ih (mem_getOrCreateName_mono x h)

theorem mem_foldl_getOrCreateName {l : List Json} {v : Json} (tbl : List Json)
    (h : v ∈ l) : v ∈ l.foldl getOrCreateName tbl := by
  induction l generalizing tbl with
  | nil => simp at h
  | cons x xs ih =>
      rcases List.mem_cons.mp h with h | h
      · subst h
        exact mem_foldl_getOrCreateName_mono xs (mem_getOrCreateName tbl v)
      · exact ih _ h

theorem foldl_getOrCreateName_of_subset {l tbl : List Json}
    (h : ∀ v ∈ l, v ∈ tbl) : l.foldl getOrCreateName tbl = tbl := by
  induction l with
  | nil => rfl
  | cons x xs ih =>
      have hx : getOrCreateName tbl x = tbl := getOrCreateName_of_mem (h x (by simp))
      simp only [List.foldl_cons, hx]
      exact ih (fun v hv => h v (by simp [hv]))

/-- The interleaved get-or-create/add loop of one many-to-many block,
split into its two independent components: the lookup table side. -/
theorem m2mLoop_fst (items : List Json) (a b : List Json) :
    (items.foldl (fun (acc : List Json × List Json) v =>
        (getOrCreateName acc.1 v, m2mAdd acc.2 v)) (a, b)).1 =
      items.foldl getOrCreateName a := by
  induction items generalizing a b with
  | nil => rfl
  | cons x xs ih => simp only [List.foldl_cons]; exact ih _ _

/-- The relation-set side of the loop. -/
theorem m2mLoop_snd (items : List Json) (a b : List Json) :
    (items.foldl (fun (acc : List Json × List Json) v =>
        (getOrCreateName acc.1 v, m2mAdd acc.2 v)) (a, b)).2 =
      items.foldl m2mAdd b := by
  induction items generalizing a b with
  | nil => rfl
  | cons x xs ih => simp only [List.foldl_cons]; exact ih _ _

theorem applyM2M_falsy {val : Json} (tbl rel : List Json)
    (h : truthy val = false) : applyM2M val tbl rel = (false, tbl, rel) := by
  simp [applyM2M, h]

theorem applyM2M_iter {val : Json} {items : List Json} (tbl rel : List Json)
    (ht : truthy val = true) (hi : pyIter val = some items) :
    applyM2M val tbl rel =
      (false, items.foldl getOrCreateName tbl, items.foldl m2mAdd []) := by
  simp [applyM2M, ht, hi, m2mLoop_fst, m2mLoop_snd]

theorem applyM2M_raise {val : Json} (tbl rel : List Json)
    (ht : truthy val = true) (hi : pyIter val = none) :
    applyM2M val tbl rel = (true, tbl, []) := by
  simp [applyM2M, ht, hi]

/-- Re-running one many-to-many block body on its own output changes
nothing. -/
theorem applyM2M_idem (val : Json) (tbl rel : List Json) :
    applyM2M val (applyM2M val tbl rel).2.1 (applyM2M val tbl rel).2.2 =
      applyM2M val tbl rel := by
  by_cases ht : truthy val = true
  · match hi : pyIter val with
    | none => simp [applyM2M_raise _ _ ht hi]
    | some items =>
        rw [applyM2M_iter tbl rel ht hi]
        rw [applyM2M_iter _ _ ht hi]
        have : items.foldl getOrCreateName (items.foldl getOrCreateName tbl) =
            items.foldl getOrCreateName tbl :=
          foldl_getOrCreateName_of_subset
            (fun v hv => mem_foldl_getOrCreateName tbl hv)
        rw [this]
  · have ht' : truthy val = false := by simpa using ht
    simp [applyM2M_falsy _ _ ht']

/-! ### Lens lemmas for the five relations and store frames -/

/-- The non-relation fields of a project, bundled for frame reasoning. -/
def scalarsOf (p : Project) :
    Json × Json × Json × Option Json × Option Json × Option Json :=
  (p.project_id, p.project_name, p.project_status,
   p.sponsor, p.responsible_party, p.route_of_admin)

/-- The three single-valued lookup tables, bundled for frame reasoning. -/
def fkTablesOf (s : Store) : List Json × List Json × List Json :=
  (s.sponsors, s.responsible_parties, s.routes_of_admin)

theorem relSet_setRel_self (r : M2MField) (p : Project) (l : List Json) :
    relSet r (setRel r p l) = l := by
  cases r <;> rfl

theorem relSet_setRel_ne {r r' : M2MField} (p : Project) (l : List Json)
    (h : r ≠ r') : relSet r (setRel r' p l) = relSet r p := by
  cases r <;> cases r' <;> first | rfl | exact absurd rfl h

theorem setRel_relSet (r : M2MField) (p : Project) :
    setRel r p (relSet r p) = p := by
  cases r <;> rfl

theorem scalarsOf_setRel (r : M2MField) (p : Project) (l : List Json) :
    scalarsOf (setRel r p l) = scalarsOf p := by
  cases r <;> rfl

theorem relTbl_setTbl_self (r : M2MField) (s : Store) (l : List Json) :
    relTbl r (setTbl r s l) = l := by
  cases r <;> rfl

theorem relTbl_setTbl_ne {r r' : M2MField} (s : Store) (l : List Json)
    (h : r ≠ r') : relTbl r (setTbl r' s l) = relTbl r s := by
  cases r <;> cases r' <;> first | rfl | exact absurd rfl h

theorem setTbl_relTbl (r : M2MField) (s : Store) :
    setTbl r s (relTbl r s) = s := by
  cases r <;> rfl

theorem fkTablesOf_setTbl (r : M2MField) (s : Store) (l : List Json) :
    fkTablesOf (setTbl r s l) = fkTablesOf s := by
  cases r <;> rfl

theorem projects_setTbl (r : M2MField) (s : Store) (l : List Json) :
    (setTbl r s l).projects = s.projects := by
  cases r <;> rfl

theorem relTbl_updateProject (r : M2MField) (s : Store) (p : Project) :
    relTbl r (updateProject s p) = relTbl r s := by
  cases r <;> rfl

theorem fkTablesOf_updateProject (s : Store) (p : Project) :
    fkTablesOf (updateProject s p) = fkTablesOf s := rfl

/-- Saving the same in-memory project twice is the same as saving it
once. -/
theorem updateProject_updateProject (s : Store) (p : Project) :
    updateProject (updateProject s p) p = updateProject s p := by
  unfold updateProject
  simp only [List.map_map]
  have hf : ((fun q => if q.project_id = p.project_id then p else q) ∘
      (fun q => if q.project_id = p.project_id then p else q)) =
      (fun q => if q.project_id = p.project_id then p else q) := by
    funext q
    by_cases h : q.project_id = p.project_id <;> simp [Function.comp, h]
  rw [hf]

/-- List form: replacing every row whose id matches `p`'s id makes the
first lookup of that id return `p` (rows before the first match do not
match, hence are not replaced into matches). -/
theorem find?_map_replace {pid : Json} (p : Project) (hp : p.project_id = pid) :
    ∀ (l : List Project) (q : Project),
      l.find? (fun q => q.project_id == pid) = some q →
      (l.map (fun q => if q.project_id = p.project_id then p else q)).find?
        (fun q => q.project_id == pid) = some p := by
  intro l
  induction l with
  | nil => intro q hq; simp at hq
  | cons x xs ih =>
      intro q hq
      by_cases hx : x.project_id = pid
      · have hfx : (if x.project_id = p.project_id then p else x) = p := by
          rw [if_pos (by rw [hp]; exact hx)]
        simp only [List.map_cons, hfx]
        rw [List.find?_cons_of_pos _ (by simp [hp])]
      · have hfx : (if x.project_id = p.project_id then p else x) = x := by
          rw [if_neg (by rw [hp]; exact hx)]
        rw [List.find?_cons_of_neg _ (by simp [hx])] at hq
        simp only [List.map_cons, hfx]
        rw [List.find?_cons_of_neg _ (by simp [hx])]
        exact ih q hq

/-- After a save, looking the project up by its id returns the saved
in-memory object. -/
theorem findProject_updateProject_self {s : Store} {pid : Json} {q : Project}
    (p : Project) (hq : findProject s pid = some q) (hp : p.project_id = pid) :
    findProject (updateProject s p) pid = some p := by
  unfold findProject at hq ⊢
  unfold updateProject
  exact find?_map_replace p hp s.projects q hq

/-- Saving a project does not affect lookups of a different id. -/
theorem findProject_updateProject_ne {pid : Json} (s : Store) (p : Project)
    (hp : p.project_id ≠ pid) :
    findProject (updateProject s p) pid = findProject s pid := by
  unfold findProject updateProject
  simp only
  induction s.projects with
  | nil => rfl
  | cons x xs ih =>
      by_cases hx : x.project_id = p.project_id
      · have hxp : ((x.project_id == pid) = false) := by
          simp only [beq_eq_false_iff_ne, ne_eq]
          rw [hx]; exact hp
        have hpp : ((p.project_id == pid) = false) := by simpa using hp
        simp only [List.map_cons, if_pos hx]
        rw [List.find?_cons_of_neg _ (by simp [hpp]),
            List.find?_cons_of_neg _ (by simp [hxp])]
        exact ih
      · simp only [List.map_cons, if_neg hx]
        by_cases hxm : x.project_id = pid
        · rw [List.find?_cons_of_pos _ (by simp [hxm]),
              List.find?_cons_of_pos _ (by simp [hxm])]
        · rw [List.find?_cons_of_neg _ (by simp [hxm]),
              List.find?_cons_of_neg _ (by simp [hxm])]
          exact ih

/-! ### Frames, tracking and idempotence for the many-to-many chain -/

theorem m2mStep_scalarsOf (d : List (String × Json)) (r : M2MField)
    (p : Project) (s : Store) :
    scalarsOf (m2mStep d r p s).2.1 = scalarsOf p := by
  unfold m2mStep
  exact scalarsOf_setRel r p _

theorem m2mStep_fkTablesOf (d : List (String × Json)) (r : M2MField)
    (p : Project) (s : Store) :
    fkTablesOf (m2mStep d r p s).2.2 = fkTablesOf s := by
  unfold m2mStep
  rw [fkTablesOf_updateProject, fkTablesOf_setTbl]

theorem m2mStep_relSet_ne (d : List (String × Json)) {r r' : M2MField}
    (p : Project) (s : Store) (h : r' ≠ r) :
    relSet r' (m2mStep d r p s).2.1 = relSet r' p := by
  unfold m2mStep
  exact relSet_setRel_ne p _ h

theorem m2mStep_relTbl_ne (d : List (String × Json)) {r r' : M2MField}
    (p : Project) (s : Store) (h : r' ≠ r) :
    relTbl r' (m2mStep d r p s).2.2 = relTbl r' s := by
  unfold m2mStep
  rw [relTbl_updateProject, relTbl_setTbl_ne s _ h]

theorem m2mStep_relSet_self (d : List (String × Json)) (r : M2MField)
    (p : Project) (s : Store) :
    relSet r (m2mStep d r p s).2.1 =
      (applyM2M (m2mVal d (relKey r)) (relTbl r s) (relSet r p)).2.2 := by
  unfold m2mStep
  exact relSet_setRel_self r p _

theorem m2mStep_relTbl_self (d : List (String × Json)) (r : M2MField)
    (p : Project) (s : Store) :
    relTbl r (m2mStep d r p s).2.2 =
      (applyM2M (m2mVal d (relKey r)) (relTbl r s) (relSet r p)).2.1 := by
  unfold m2mStep
  rw [relTbl_updateProject, relTbl_setTbl_self]

theorem m2mStep_raised (d : List (String × Json)) (r : M2MField)
    (p : Project) (s : Store) :
    (m2mStep d r p s).1 =
      (applyM2M (m2mVal d (relKey r)) (relTbl r s) (relSet r p)).1 := rfl

theorem m2mStep_project_id (d : List (String × Json)) (r : M2MField)
    (p : Project) (s : Store) :
    (m2mStep d r p s).2.1.project_id = p.project_id := by
  have h := m2mStep_scalarsOf d r p s
  unfold scalarsOf at h
  exact congrArg (fun t => t.1) h

theorem m2mStep_saved (d : List (String × Json)) (r : M2MField)
    (p : Project) (s : Store) :
    updateProject (m2mStep d r p s).2.2 (m2mStep d r p s).2.1 =
      (m2mStep d r p s).2.2 := by
  unfold m2mStep
  simp only
  exact updateProject_updateProject _ _

theorem setRel_project_id (r : M2MField) (p : Project) (l : List Json) :
    (setRel r p l).project_id = p.project_id := by
  cases r <;> rfl

theorem setRel_setRel (r : M2MField) (p : Project) (l l2 : List Json) :
    setRel r (setRel r p l) l2 = setRel r p l2 := by
  cases r <;> rfl

theorem setTbl_setTbl (r : M2MField) (s : Store) (l l2 : List Json) :
    setTbl r (setTbl r s l) l2 = setTbl r s l2 := by
  cases r <;> rfl

theorem setTbl_updateProject (r : M2MField) (s : Store) (p : Project)
    (l : List Json) :
    setTbl r (updateProject s p) l = updateProject (setTbl r s l) p := by
  cases r <;> rfl

theorem m2mStep_tracks {pid : Json} (d : List (String × Json)) (r : M2MField)
    {p : Project} {s : Store} (hfind : findProject s pid = some p)
    (hid : p.project_id = pid) :
    findProject (m2mStep d r p s).2.2 pid = some (m2mStep d r p s).2.1 := by
  unfold m2mStep
  simp only
  have hfind2 : findProject (setTbl r s
      (applyM2M (m2mVal d (relKey r)) (relTbl r s) (relSet r p)).2.1) pid = some p := by
    unfold findProject
    rw [projects_setTbl]
    exact hfind
  exact findProject_updateProject_self _ hfind2 (by rw [setRel_project_id]; exact hid)

/-- Re-running one already-applied many-to-many step changes nothing. -/
theorem m2mStep_idem (d : List (String × Json)) (r : M2MField)
    (p : Project) (s : Store) :
    m2mStep d r (m2mStep d r p s).2.1 (m2mStep d r p s).2.2 = m2mStep d r p s := by
  unfold m2mStep
  simp only [relSet_setRel_self, relTbl_updateProject, relTbl_setTbl_self,
    applyM2M_idem, setRel_setRel, setTbl_updateProject, setTbl_setTbl,
    updateProject_updateProject]

theorem runM2Ms_nil (d : List (String × Json)) (p : Project) (s : Store) :
    runM2Ms d [] p s = (false, p, s) := rfl

theorem runM2Ms_cons (d : List (String × Json)) (r : M2MField)
    (rs : List M2MField) (p : Project) (s : Store) :
    runM2Ms d (r :: rs) p s =
      if (m2mStep d r p s).1 then
        (true, (m2mStep d r p s).2.1, (m2mStep d r p s).2.2)
      else runM2Ms d rs (m2mStep d r p s).2.1 (m2mStep d r p s).2.2 := rfl

theorem runM2Ms_scalarsOf (d : List (String × Json)) :
    ∀ (rs : List M2MField) (p : Project) (s : Store),
      scalarsOf (runM2Ms d rs p s).2.1 = scalarsOf p := by
  intro rs
  induction rs with
  | nil => intro p s; rfl
  | cons r rs ih =>
      intro p s
      rw [runM2Ms_cons]
      by_cases h : (m2mStep d r p s).1 = true
      · simp only [h, if_true]
        exact m2mStep_scalarsOf d r p s
      · have h2 : (m2mStep d r p s).1 = false := eq_false_of_ne_true h
        simp only [h2, Bool.false_eq_true, if_false]
        rw [ih]
        exact m2mStep_scalarsOf d r p s

theorem runM2Ms_fkTablesOf (d : List (String × Json)) :
    ∀ (rs : List M2MField) (p : Project) (s : Store),
      fkTablesOf (runM2Ms d rs p s).2.2 = fkTablesOf s := by
  intro rs
  induction rs with
  | nil => intro p s; rfl
  | cons r rs ih =>
      intro p s
      rw [runM2Ms_cons]
      by_cases h : (m2mStep d r p s).1 = true
      · simp only [h, if_true]
        exact m2mStep_fkTablesOf d r p s
      · have h2 : (m2mStep d r p s).1 = false := eq_false_of_ne_true h
        simp only [h2, Bool.false_eq_true, if_false]
        rw [ih]
        exact m2mStep_fkTablesOf d r p s

theorem runM2Ms_relSet_notin (d : List (String × Json)) {r2 : M2MField} :
    ∀ (rs : List M2MField) (p : Project) (s : Store), r2 ∉ rs →
      relSet r2 (runM2Ms d rs p s).2.1 = relSet r2 p := by
  intro rs
  induction rs with
  | nil => intro p s _; rfl
  | cons r rs ih =>
      intro p s hnot
      have hne : r2 ≠ r := fun h => hnot (by simp [h])
      have hnot2 : r2 ∉ rs := fun h => hnot (by simp [h])
      rw [runM2Ms_cons]
      by_cases h : (m2mStep d r p s).1 = true
      · simp only [h, if_true]
        exact m2mStep_relSet_ne d p s hne
      · have h2 : (m2mStep d r p s).1 = false := eq_false_of_ne_true h
        simp only [h2, Bool.false_eq_true, if_false]
        rw [ih _ _ hnot2]
        exact m2mStep_relSet_ne d p s hne

theorem runM2Ms_relTbl_notin (d : List (String × Json)) {r2 : M2MField} :
    ∀ (rs : List M2MField) (p : Project) (s : Store), r2 ∉ rs →
      relTbl r2 (runM2Ms d rs p s).2.2 = relTbl r2 s := by
  intro rs
  induction rs with
  | nil => intro p s _; rfl
  | cons r rs ih =>
      intro p s hnot
      have hne : r2 ≠ r := fun h => hnot (by simp [h])
      have hnot2 : r2 ∉ rs := fun h => hnot (by simp [h])
      rw [runM2Ms_cons]
      by_cases h : (m2mStep d r p s).1 = true
      · simp only [h, if_true]
        exact m2mStep_relTbl_ne d p s hne
      · have h2 : (m2mStep d r p s).1 = false := eq_false_of_ne_true h
        simp only [h2, Bool.false_eq_true, if_false]
        rw [ih _ _ hnot2]
        exact m2mStep_relTbl_ne d p s hne

theorem runM2Ms_project_id (d : List (String × Json)) (rs : List M2MField)
    (p : Project) (s : Store) :
    (runM2Ms d rs p s).2.1.project_id = p.project_id := by
  have h := runM2Ms_scalarsOf d rs p s
  unfold scalarsOf at h
  exact congrArg (fun t => t.1) h

theorem runM2Ms_tracks {pid : Json} (d : List (String × Json)) :
    ∀ (rs : List M2MField) (p : Project) (s : Store),
      findProject s pid = some p → p.project_id = pid →
      findProject (runM2Ms d rs p s).2.2 pid = some (runM2Ms d rs p s).2.1 := by
  intro rs
  induction rs with
  | nil => intro p s hfind _; exact hfind
  | cons r rs ih =>
      intro p s hfind hid
      rw [runM2Ms_cons]
      by_cases h : (m2mStep d r p s).1 = true
      · simp only [h, if_true]
        exact m2mStep_tracks d r hfind hid
      · have h2 : (m2mStep d r p s).1 = false := eq_false_of_ne_true h
        simp only [h2, Bool.false_eq_true, if_false]
        exact ih _ _ (m2mStep_tracks d r hfind hid)
          (by rw [m2mStep_project_id]; exact hid)

theorem runM2Ms_saved (d : List (String × Json)) :
    ∀ (rs : List M2MField) (p : Project) (s : Store),
      updateProject s p = s →
      updateProject (runM2Ms d rs p s).2.2 (runM2Ms d rs p s).2.1 =
        (runM2Ms d rs p s).2.2 := by
  intro rs
  induction rs with
  | nil => intro p s hsaved; exact hsaved
  | cons r rs ih =>
      intro p s _
      rw [runM2Ms_cons]
      by_cases h : (m2mStep d r p s).1 = true
      · simp only [h, if_true]
        exact m2mStep_saved d r p s
      · have h2 : (m2mStep d r p s).1 = false := eq_false_of_ne_true h
        simp only [h2, Bool.false_eq_true, if_false]
        exact ih _ _ (m2mStep_saved d r p s)

/-- The step as a plain tuple (used to rewrite a single occurrence
without unfolding others). -/
theorem m2mStep_eq (d : List (String × Json)) (r : M2MField)
    (p : Project) (s : Store) :
    m2mStep d r p s =
      ((applyM2M (m2mVal d (relKey r)) (relTbl r s) (relSet r p)).1,
       setRel r p (applyM2M (m2mVal d (relKey r)) (relTbl r s) (relSet r p)).2.2,
       updateProject
         (setTbl r s (applyM2M (m2mVal d (relKey r)) (relTbl r s) (relSet r p)).2.1)
         (setRel r p (applyM2M (m2mVal d (relKey r)) (relTbl r s) (relSet r p)).2.2)) :=
  rfl

/-- Re-running the whole chain of distinct many-to-many blocks on its own
output changes nothing, provided the threaded project was saved. -/
theorem runM2Ms_idem (d : List (String × Json)) :
    ∀ (rs : List M2MField) (p : Project) (s : Store), rs.Nodup →
      updateProject s p = s →
      runM2Ms d rs (runM2Ms d rs p s).2.1 (runM2Ms d rs p s).2.2 =
        runM2Ms d rs p s := by
  intro rs
  induction rs with
  | nil => intro p s _ _; rfl
  | cons r rs ih =>
      intro p s hnd hsaved
      have hrnotin : r ∉ rs := (List.nodup_cons.mp hnd).1
      have hnd2 : rs.Nodup := (List.nodup_cons.mp hnd).2
      have hsv := m2mStep_saved d r p s
      have hrelself := m2mStep_relSet_self d r p s
      have htblself := m2mStep_relTbl_self d r p s
      have hraised := m2mStep_raised d r p s
      have hidem := m2mStep_idem d r p s
      rcases hM : m2mStep d r p s with ⟨raised, p1, s1⟩
      rw [hM] at hsv hrelself htblself hraised hidem
      simp only at hsv hrelself htblself hraised hidem
      have hout : runM2Ms d (r :: rs) p s =
          if raised then (true, p1, s1) else runM2Ms d rs p1 s1 := by
        rw [runM2Ms_cons, hM]
      rw [hout]
      cases raised with
      | true =>
          simp only [if_true]
          rw [runM2Ms_cons, hidem]
          simp
      | false =>
          simp only [Bool.false_eq_true, if_false]
          rw [runM2Ms_cons]
          have hsetp : relSet r (runM2Ms d rs p1 s1).2.1 = relSet r p1 :=
            runM2Ms_relSet_notin d rs _ _ hrnotin
          have hsett : relTbl r (runM2Ms d rs p1 s1).2.2 = relTbl r s1 :=
            runM2Ms_relTbl_notin d rs _ _ hrnotin
          have hBsv := runM2Ms_saved d rs p1 s1 hsv
          have hstep2 : m2mStep d r (runM2Ms d rs p1 s1).2.1
              (runM2Ms d rs p1 s1).2.2 =
              (false, (runM2Ms d rs p1 s1).2.1, (runM2Ms d rs p1 s1).2.2) := by
            rw [m2mStep_eq]
            rw [hsetp, hsett, hrelself, htblself, applyM2M_idem]
            rw [← hraised]
            rw [← htblself, ← hsett, setTbl_relTbl]
            rw [← hrelself, ← hsetp, setRel_relSet]
            rw [hBsv]
          rw [hstep2]
          simp only [Bool.false_eq_true, if_false]
          exact ih p1 s1 hnd2 hsv

/-- A many-to-many value that does not raise: either falsy (block
skipped) or iterable. -/
def iterOK (val : Json) : Prop :=
  truthy val = true → (pyIter val).isSome = true

instance (val : Json) : Decidable (iterOK val) := by
  unfold iterOK
  infer_instance

theorem m2mStep_not_raised (d : List (String × Json)) (r : M2MField)
    (p : Project) (s : Store) (h : iterOK (m2mVal d (relKey r))) :
    (m2mStep d r p s).1 = false := by
  rw [m2mStep_raised]
  by_cases ht : truthy (m2mVal d (relKey r)) = true
  · rcases ho : pyIter (m2mVal d (relKey r)) with _ | items
    · exact absurd (h ht) (by simp [ho])
    · rw [applyM2M_iter _ _ ht ho]
  · rw [applyM2M_falsy _ _ (eq_false_of_ne_true ht)]

/-- What one relation looks like after the whole chain, provided no block
raises: a truthy value replaces the relation set with the deduplicated
iterated items and get-or-creates each item into the lookup table; a
falsy value leaves both untouched. -/
theorem runM2Ms_char (d : List (String × Json)) {r : M2MField} :
    ∀ (rs : List M2MField) (p : Project) (s : Store), rs.Nodup → r ∈ rs →
      (∀ r2 ∈ rs, iterOK (m2mVal d (relKey r2))) →
      relSet r (runM2Ms d rs p s).2.1 =
        (if truthy (m2mVal d (relKey r)) then
          ((pyIter (m2mVal d (relKey r))).getD []).foldl m2mAdd []
        else relSet r p)
      ∧ relTbl r (runM2Ms d rs p s).2.2 =
        (if truthy (m2mVal d (relKey r)) then
          ((pyIter (m2mVal d (relKey r))).getD []).foldl getOrCreateName (relTbl r s)
        else relTbl r s) := by
  intro rs
  induction rs with
  | nil => intro p s _ hr; simp at hr
  | cons r0 rs ih =>
      intro p s hnd hr hok
      have hok0 : iterOK (m2mVal d (relKey r0)) := hok r0 (by simp)
      have hfalse : (m2mStep d r0 p s).1 = false := m2mStep_not_raised d r0 p s hok0
      rw [runM2Ms_cons]
      simp only [hfalse, Bool.false_eq_true, if_false]
      by_cases hrr : r = r0
      · subst hrr
        have hnotin : r ∉ rs := (List.nodup_cons.mp hnd).1
        have hrel := runM2Ms_relSet_notin d rs (m2mStep d r p s).2.1
          (m2mStep d r p s).2.2 hnotin
        have htbl := runM2Ms_relTbl_notin d rs (m2mStep d r p s).2.1
          (m2mStep d r p s).2.2 hnotin
        rw [hrel, htbl, m2mStep_relSet_self, m2mStep_relTbl_self]
        by_cases ht : truthy (m2mVal d (relKey r)) = true
        · rcases ho : pyIter (m2mVal d (relKey r)) with _ | items
          · exact absurd (hok0 ht) (by simp [ho])
          · rw [applyM2M_iter _ _ ht ho]
            simp [ht, ho]
        · have ht' : truthy (m2mVal d (relKey r)) = false := eq_false_of_ne_true ht
          rw [applyM2M_falsy _ _ ht']
          simp [ht']
      · have hrin : r ∈ rs := by
          rcases List.mem_cons.mp hr with h | h
          · exact absurd h hrr
          · exact h
        have hok2 : ∀ r2 ∈ rs, iterOK (m2mVal d (relKey r2)) :=
          fun r2 h2 => hok r2 (by simp [h2])
        have hih := ih (m2mStep d r0 p s).2.1 (m2mStep d r0 p s).2.2
          (List.nodup_cons.mp hnd).2 hrin hok2
        rw [hih.1, hih.2,
          m2mStep_relSet_ne d p s hrr, m2mStep_relTbl_ne d p s hrr]
        exact ⟨rfl, rfl⟩

/-! ### Lemmas about the scalar/reference/save phase -/

theorem getD_getD {α : Type} (o : Option α) (x : α) :
    o.getD (o.getD x) = o.getD x := by
  cases o <;> rfl

theorem fkStep_idem (val : Option Json) (tbl : List Json) (cur : Option Json) :
    fkStep val (fkStep val tbl cur).2 (fkStep val tbl cur).1 =
      fkStep val tbl cur := by
  match val with
  | none => rfl
  | some v =>
      by_cases ht : truthy v = true
      · simp only [fkStep, ht, if_true]
        rw [getOrCreateName_of_mem (mem_getOrCreateName tbl v)]
      · simp only [fkStep, eq_false_of_ne_true ht, Bool.false_eq_true, if_false]

theorem savePhase_fst (d : List (String × Json)) (p : Project) (s : Store) :
    (savePhase d p s).1 =
      { applyScalar d p with
        sponsor := (fkStep (jget d "sponsor_name") s.sponsors p.sponsor).1,
        responsible_party :=
          (fkStep (jget d "responsible_party") s.responsible_parties p.responsible_party).1,
        route_of_admin :=
          (fkStep (jget d "route_of_admin") s.routes_of_admin p.route_of_admin).1 } := rfl

theorem savePhase_project_id (d : List (String × Json)) (p : Project) (s : Store) :
    (savePhase d p s).1.project_id = p.project_id := rfl

theorem savePhase_project_name (d : List (String × Json)) (p : Project) (s : Store) :
    (savePhase d p s).1.project_name = (jget d "project_name").getD p.project_name := rfl

theorem savePhase_project_status (d : List (String × Json)) (p : Project) (s : Store) :
    (savePhase d p s).1.project_status = (jget d "project_status").getD p.project_status := rfl

theorem savePhase_sponsor (d : List (String × Json)) (p : Project) (s : Store) :
    (savePhase d p s).1.sponsor =
      (fkStep (jget d "sponsor_name") s.sponsors p.sponsor).1 := rfl

theorem savePhase_party (d : List (String × Json)) (p : Project) (s : Store) :
    (savePhase d p s).1.responsible_party =
      (fkStep (jget d "responsible_party") s.responsible_parties p.responsible_party).1 := rfl

theorem savePhase_route (d : List (String × Json)) (p : Project) (s : Store) :
    (savePhase d p s).1.route_of_admin =
      (fkStep (jget d "route_of_admin") s.routes_of_admin p.route_of_admin).1 := rfl

theorem savePhase_sponsors (d : List (String × Json)) (p : Project) (s : Store) :
    (savePhase d p s).2.sponsors =
      (fkStep (jget d "sponsor_name") s.sponsors p.sponsor).2 := rfl

theorem savePhase_parties (d : List (String × Json)) (p : Project) (s : Store) :
    (savePhase d p s).2.responsible_parties =
      (fkStep (jget d "responsible_party") s.responsible_parties p.responsible_party).2 := rfl

theorem savePhase_routes (d : List (String × Json)) (p : Project) (s : Store) :
    (savePhase d p s).2.routes_of_admin =
      (fkStep (jget d "route_of_admin") s.routes_of_admin p.route_of_admin).2 := rfl

theorem savePhase_relSet (d : List (String × Json)) (r : M2MField)
    (p : Project) (s : Store) :
    relSet r (savePhase d p s).1 = relSet r p := by
  cases r <;> rfl

theorem savePhase_relTbl (d : List (String × Json)) (r : M2MField)
    (p : Project) (s : Store) :
    relTbl r (savePhase d p s).2 = relTbl r s := by
  cases r <;> rfl

theorem savePhase_saved (d : List (String × Json)) (p : Project) (s : Store) :
    updateProject (savePhase d p s).2 (savePhase d p s).1 = (savePhase d p s).2 := by
  unfold savePhase
  simp only
  exact updateProject_updateProject _ _

theorem savePhase_tracks {pid : Json} (d : List (String × Json))
    {p : Project} {s : Store} {q : Project}
    (hfind : findProject s pid = some q) (hid : p.project_id = pid) :
    findProject (savePhase d p s).2 pid = some (savePhase d p s).1 := by
  unfold savePhase
  simp only
  have hfind2 : findProject { s with
      sponsors := (fkStep (jget d "sponsor_name") s.sponsors (applyScalar d p).sponsor).2,
      responsible_parties := (fkStep (jget d "responsible_party") s.responsible_parties
        (applyScalar d p).responsible_party).2,
      routes_of_admin := (fkStep (jget d "route_of_admin") s.routes_of_admin
        (applyScalar d p).route_of_admin).2 } pid = some q := hfind
  exact findProject_updateProject_self _ hfind2 hid

theorem applyScalar_eq_self {d : List (String × Json)} {q : Project}
    (h1 : (jget d "project_name").getD q.project_name = q.project_name)
    (h2 : (jget d "project_status").getD q.project_status = q.project_status) :
    applyScalar d q = q := by
  unfold applyScalar
  rw [h1, h2]

/-- If every component of the scalar/reference phase is already in place
and the project is saved, the phase is the identity. -/
theorem savePhase_eq_self {d : List (String × Json)} {q : Project} {t : Store}
    (hname : (jget d "project_name").getD q.project_name = q.project_name)
    (hstatus : (jget d "project_status").getD q.project_status = q.project_status)
    (hsp : fkStep (jget d "sponsor_name") t.sponsors q.sponsor =
      (q.sponsor, t.sponsors))
    (hpa : fkStep (jget d "responsible_party") t.responsible_parties
      q.responsible_party = (q.responsible_party, t.responsible_parties))
    (hro : fkStep (jget d "route_of_admin") t.routes_of_admin
      q.route_of_admin = (q.route_of_admin, t.routes_of_admin))
    (hsaved : updateProject t q = t) :
    savePhase d q t = (q, t) := by
  unfold savePhase
  simp only [applyScalar_eq_self hname hstatus, hsp, hpa, hro]
  show (q, updateProject t q) = (q, t)
  rw [hsaved]

/-- Re-running the scalar/reference/save phase on the state left by the
save phase followed by any many-to-many chain changes nothing. -/
theorem savePhase_post (d : List (String × Json)) (rs : List M2MField)
    (p : Project) (s : Store) :
    savePhase d (runM2Ms d rs (savePhase d p s).1 (savePhase d p s).2).2.1
               (runM2Ms d rs (savePhase d p s).1 (savePhase d p s).2).2.2 =
      ((runM2Ms d rs (savePhase d p s).1 (savePhase d p s).2).2.1,
       (runM2Ms d rs (savePhase d p s).1 (savePhase d p s).2).2.2) := by
  have hsc := runM2Ms_scalarsOf d rs (savePhase d p s).1 (savePhase d p s).2
  have hfk := runM2Ms_fkTablesOf d rs (savePhase d p s).1 (savePhase d p s).2
  have hsaved := runM2Ms_saved d rs (savePhase d p s).1 (savePhase d p s).2
    (savePhase_saved d p s)
  unfold scalarsOf at hsc
  unfold fkTablesOf at hfk
  simp only [Prod.mk.injEq] at hsc hfk
  obtain ⟨hid, hname, hstatus, hsp, hpa, hro⟩ := hsc
  obtain ⟨hsps, hpas, hros⟩ := hfk
  refine savePhase_eq_self ?_ ?_ ?_ ?_ ?_ hsaved
  · rw [hname, savePhase_project_name]; exact getD_getD _ _
  · rw [hstatus, savePhase_project_status]; exact getD_getD _ _
  · rw [hsp, hsps, savePhase_sponsor, savePhase_sponsors, fkStep_idem]
  · rw [hpa, hpas, savePhase_party, savePhase_parties, fkStep_idem]
  · rw [hro, hros, savePhase_route, savePhase_routes, fkStep_idem]

/-! ### Reconcile- and document-level lemmas -/

theorem findProject_id {s : Store} {pid : Json} {p : Project}
    (h : findProject s pid = some p) : p.project_id = pid := by
  unfold findProject at h
  have := List.find?_some h
  simpa using this

theorem findProject_append {s : Store} {pid : Json} {p : Project}
    (hnone : findProject s pid = none) (hid : p.project_id = pid) :
    findProject { s with projects := s.projects ++ [p] } pid = some p := by
  unfold findProject at hnone ⊢
  rw [List.find?_append, hnone]
  simp only [Option.none_or]
  rw [List.find?_cons_of_pos _ (by simp [hid])]

theorem reconcile_store (d : List (String × Json)) (p : Project) (s : Store)
    (c : Bool) :
    (reconcile d p s c).store =
      (runM2Ms d relOrder (savePhase d p s).1 (savePhase d p s).2).2.2 := by
  unfold reconcile
  by_cases h : (runM2Ms d relOrder (savePhase d p s).1 (savePhase d p s).2).1 = true <;>
    simp [h]

theorem reconcile_tracks {pid : Json} {d : List (String × Json)}
    {p : Project} {s : Store} {q : Project} (c : Bool)
    (hfind : findProject s pid = some q) (hid : p.project_id = pid) :
    findProject (reconcile d p s c).store pid =
      some (runM2Ms d relOrder (savePhase d p s).1 (savePhase d p s).2).2.1 := by
  rw [reconcile_store]
  exact runM2Ms_tracks d relOrder _ _
    (savePhase_tracks d hfind hid)
    (by rw [savePhase_project_id]; exact hid)

/-- Reconciling again, starting from the final in-memory project and the
state left by a reconcile of the same record, leaves the store unchanged. -/
theorem reconcile_post (d : List (String × Json)) (p : Project) (s : Store)
    (c c2 : Bool) :
    (reconcile d (runM2Ms d relOrder (savePhase d p s).1 (savePhase d p s).2).2.1
      (reconcile d p s c).store c2).store = (reconcile d p s c).store := by
  have hpost := savePhase_post d relOrder p s
  have hidem := runM2Ms_idem d relOrder (savePhase d p s).1 (savePhase d p s).2
    (by decide) (savePhase_saved d p s)
  rw [reconcile_store, reconcile_store, hpost]
  simp only
  rw [hidem]

theorem processDoc_obj_noid {d : List (String × Json)} (u : Bool) (s : Store)
    (h : ∀ v, jget d "project_id" = some v → truthy v = false) :
    processDoc u (.obj d) s = ⟨.skippedNoId, s, [.skippedMissingProjectId]⟩ := by
  show processObj u d s = _
  unfold processObj
  rcases hv : jget d "project_id" with _ | v
  · rfl
  · simp [h v hv]

theorem processDoc_obj_exists_noupdate {d : List (String × Json)} {s : Store}
    {pid : Json} {p : Project}
    (hpid : jget d "project_id" = some pid) (ht : truthy pid = true)
    (hf : findProject s pid = some p) :
    processDoc false (.obj d) s = ⟨.skippedExists, s, [.skippedExistingProject]⟩ := by
  show processObj false d s = _
  unfold processObj
  rw [hpid]
  simp [ht, hf]

theorem processDoc_obj_found_update {d : List (String × Json)} {s : Store}
    {pid : Json} {p : Project}
    (hpid : jget d "project_id" = some pid) (ht : truthy pid = true)
    (hf : findProject s pid = some p) :
    processDoc true (.obj d) s =
      ⟨(reconcile d p s false).outcome, (reconcile d p s false).store,
       .updatingExistingProject :: (reconcile d p s false).msgs⟩ := by
  show processObj true d s = _
  unfold processObj
  rw [hpid]
  simp [ht, hf]

theorem processDoc_obj_notfound {d : List (String × Json)} {s : Store}
    {pid : Json} (u : Bool)
    (hpid : jget d "project_id" = some pid) (ht : truthy pid = true)
    (hf : findProject s pid = none) :
    processDoc u (.obj d) s =
      ⟨(reconcile d (newProject d pid)
          { s with projects := s.projects ++ [newProject d pid] } true).outcome,
        (reconcile d (newProject d pid)
          { s with projects := s.projects ++ [newProject d pid] } true).store,
        .createdProject :: (reconcile d (newProject d pid)
          { s with projects := s.projects ++ [newProject d pid] } true).msgs⟩ := by
  show processObj u d s = _
  unfold processObj
  rw [hpid]
  simp [ht, hf]

/-- Document-level idempotence of the update path. -/
theorem processDoc_update_idem {d : List (String × Json)} {s : Store} {pid : Json}
    (hpid : jget d "project_id" = some pid) (ht : truthy pid = true) :
    (processDoc true (.obj d) (processDoc true (.obj d) s).store).store =
      (processDoc true (.obj d) s).store := by
  rcases hf : findProject s pid with _ | p
  · -- first run creates the row, second finds and updates it
    rw [processDoc_obj_notfound true hpid ht hf]
    simp only
    have hid0 : (newProject d pid).project_id = pid := rfl
    have hfind2 : findProject
        { s with projects := s.projects ++ [newProject d pid] } pid =
        some (newProject d pid) := findProject_append hf hid0
    have htr := reconcile_tracks (c := true) (d := d) hfind2 hid0
    rw [processDoc_obj_found_update hpid ht htr]
    simp only
    exact reconcile_post d (newProject d pid)
      { s with projects := s.projects ++ [newProject d pid] } true false
  · rw [processDoc_obj_found_update hpid ht hf]
    simp only
    have hidp : p.project_id = pid := findProject_id hf
    have htr := reconcile_tracks (c := false) (d := d) hf hidp
    rw [processDoc_obj_found_update hpid ht htr]
    simp only
    exact reconcile_post d p s false false

/-! ### Per-file and batch-level equations -/

theorem handle_eq (loads : String → Option Json)
    (service : String → Option (List (String × String)))
    (u : Bool) (files : List BatchFile) (s : Store) :
    handle loads service u files s =
      ((files.foldl (processFile loads service u) (s, [Msg.startingRun])).1,
       (files.foldl (processFile loads service u) (s, [Msg.startingRun])).2 ++
         [Msg.processingComplete]) := rfl

theorem processFile_unrecognized {f : BatchFile}
    (loads : String → Option Json)
    (service : String → Option (List (String × String)))
    (u : Bool) (acc : Store × List Msg)
    (h1 : pyEndsWith (pyLower f.filename) ".docx" = false)
    (h2 : pyEndsWith (pyLower f.filename) ".pdf" = false) :
    processFile loads service u acc f = acc := by
  unfold processFile
  simp [h1, h2]

theorem processFile_extract_fail {f : BatchFile} {t : String}
    (loads : String → Option Json)
    (service : String → Option (List (String × String)))
    (u : Bool) (acc : Store × List Msg)
    (h1 : pyEndsWith (pyLower f.filename) ".docx" = true)
    (hraw : f.rawText = some t) (hne : ¬ t = "")
    (hfail : call_phi3_for_extraction loads service t = none) :
    processFile loads service u acc f =
      (acc.1, acc.2 ++ [.processingDocx, .extracting, .extractionFailed]) := by
  unfold processFile
  rw [hraw]
  simp [h1, hne, hfail]

theorem processFile_extract_falsy {f : BatchFile} {t : String} {j : Json}
    (loads : String → Option Json)
    (service : String → Option (List (String × String)))
    (u : Bool) (acc : Store × List Msg)
    (h1 : pyEndsWith (pyLower f.filename) ".docx" = true)
    (hraw : f.rawText = some t) (hne : ¬ t = "")
    (hphi : call_phi3_for_extraction loads service t = some j)
    (hfalsy : truthy j = false) :
    processFile loads service u acc f =
      (acc.1, acc.2 ++ [.processingDocx, .extracting, .extractionFailed]) := by
  unfold processFile
  rw [hraw]
  simp [h1, hne, hphi, hfalsy]

theorem processFile_doc {f : BatchFile} {t : String} {j : Json}
    (loads : String → Option Json)
    (service : String → Option (List (String × String)))
    (u : Bool) (acc : Store × List Msg)
    (h1 : pyEndsWith (pyLower f.filename) ".docx" = true)
    (hraw : f.rawText = some t) (hne : ¬ t = "")
    (hphi : call_phi3_for_extraction loads service t = some j)
    (htruthy : truthy j = true) :
    processFile loads service u acc f =
      ((processDoc u j acc.1).store,
       acc.2 ++ [.processingDocx, .extracting] ++ (processDoc u j acc.1).msgs) := by
  unfold processFile
  rw [hraw]
  simp [h1, hne, hphi, htruthy]

/-! ## Claim theorems -/

set_option maxRecDepth 400000

/-- A sample pre-existing project used by several witnesses. -/
def sampleProject : Project :=
  { project_id := .str "P1", project_name := .str "Old name",
    project_status := .str "Old status",
    sponsor := some (.str "OldSponsor"), responsible_party := none,
    route_of_admin := none,
    deliverables := [.str "A", .str "B"], therapeutic_areas := [],
    ingredient_categories := [], ingredients := [], demographics := [] }

/-- A store already holding `sampleProject` and its lookup rows. -/
def sampleStore : Store :=
  { emptyStore with
    projects := [sampleProject],
    sponsors := [.str "OldSponsor"],
    deliverables := [.str "A", .str "B"] }

/-- C5: an extraction object whose `project_id` is missing, null or falsy
(empty string) is reported as skipped — not failed — and no storage
operation happens: the store is returned unchanged. -/
theorem C5_missing_identifier_skipped {d : List (String × Json)} (u : Bool)
    (s : Store)
    (h : (jget d "project_id").all (fun v => !truthy v) = true) :
    processDoc u (.obj d) s = ⟨.skippedNoId, s, [.skippedMissingProjectId]⟩ := by
  apply processDoc_obj_noid
  intro v hv
  rw [hv] at h
  simpa using h

/-- C5 witness: a record carrying only a null `project_id` is skipped and
the empty store stays empty. -/
theorem C5_missing_identifier_skipped_witness :
    processDoc true (.obj [("project_id", Json.null), ("project_name", Json.str "X")])
      emptyStore = ⟨.skippedNoId, emptyStore, [.skippedMissingProjectId]⟩ :=
  C5_missing_identifier_skipped true emptyStore (by decide)

/-- C6: with `--update` absent and a project with the extracted id
already stored, the document is reported as skipped and the whole store
— projects, references, relation sets and every lookup table — is
returned unchanged. -/
theorem C6_update_disabled_existing_skips_untouched {d : List (String × Json)}
    {s : Store} {pid : Json} {p : Project}
    (hpid : jget d "project_id" = some pid) (ht : truthy pid = true)
    (hf : findProject s pid = some p) :
    processDoc false (.obj d) s = ⟨.skippedExists, s, [.skippedExistingProject]⟩ :=
  processDoc_obj_exists_noupdate hpid ht hf

/-- C6 witness: a record that would rename `P1` and add relations leaves
`sampleStore` byte-for-byte unchanged when update is disabled. -/
theorem C6_update_disabled_existing_skips_untouched_witness :
    processDoc false (.obj [("project_id", Json.str "P1"),
        ("project_name", Json.str "New"), ("sponsor_name", Json.str "S2"),
        ("deliverables", Json.arr [Json.str "C"])]) sampleStore =
      ⟨.skippedExists, sampleStore, [.skippedExistingProject]⟩ :=
  C6_update_disabled_existing_skips_untouched (p := sampleProject)
    (by decide : jget [("project_id", Json.str "P1"),
        ("project_name", Json.str "New"), ("sponsor_name", Json.str "S2"),
        ("deliverables", Json.arr [Json.str "C"])] "project_id" =
      some (Json.str "P1"))
    (by decide) (by decide)

/-- C7: processing the same extraction twice in sequence with update
enabled leaves exactly the final entity graph of processing it once —
the stores after one and after two runs are equal (same project rows,
same relation sets, no new lookup rows). -/
theorem C7_reprocessing_idempotent {d : List (String × Json)} {s : Store}
    {pid : Json}
    (hpid : jget d "project_id" = some pid) (ht : truthy pid = true) :
    (processDoc true (.obj d) (processDoc true (.obj d) s).store).store =
      (processDoc true (.obj d) s).store :=
  processDoc_update_idem hpid ht

/-- C7 witness: a concrete record with scalar, reference and relation
content, processed from the empty store. -/
theorem C7_reprocessing_idempotent_witness :
    (processDoc true (.obj [("project_id", Json.str "P1"),
        ("project_name", Json.str "N"), ("sponsor_name", Json.str "Acme"),
        ("ingredients", Json.arr [Json.str "I1", Json.str "I2"])])
      (processDoc true (.obj [("project_id", Json.str "P1"),
        ("project_name", Json.str "N"), ("sponsor_name", Json.str "Acme"),
        ("ingredients", Json.arr [Json.str "I1", Json.str "I2"])])
        emptyStore).store).store =
    (processDoc true (.obj [("project_id", Json.str "P1"),
        ("project_name", Json.str "N"), ("sponsor_name", Json.str "Acme"),
        ("ingredients", Json.arr [Json.str "I1", Json.str "I2"])])
      emptyStore).store :=
  C7_reprocessing_idempotent
    (by decide : jget [("project_id", Json.str "P1"),
        ("project_name", Json.str "N"), ("sponsor_name", Json.str "Acme"),
        ("ingredients", Json.arr [Json.str "I1", Json.str "I2"])] "project_id" =
      some (Json.str "P1"))
    (by decide)

/-- C3 counterexample: the stored name of `P1` is "Old name", but
processing (with update) an extraction whose `project_name` is present
with the value `null` overwrites the field with `null` instead of
preserving it: `extracted_data.get('project_name', current)` only falls
back to the current value when the key is absent. -/
theorem C3_null_overwrites_name_counterexample :
    (findProject sampleStore (Json.str "P1")).map Project.project_name =
      some (Json.str "Old name") ∧
    (findProject (processDoc true (.obj [("project_id", Json.str "P1"),
        ("project_name", Json.null)]) sampleStore).store (Json.str "P1")).map
      Project.project_name = some Json.null := by
  refine ⟨by decide, ?_⟩
  decide

/-- C3 amended: for an existing project processed with update enabled,
`project_name` and `project_status` keep their previously stored values
exactly when the extraction omits the key; any present value — `null`
included — overwrites the field. -/
theorem C3_scalar_overwrite_iff_key_present {d : List (String × Json)}
    {s : Store} {pid : Json} {p : Project}
    (hpid : jget d "project_id" = some pid) (ht : truthy pid = true)
    (hf : findProject s pid = some p) :
    ∃ p2, findProject (processDoc true (.obj d) s).store pid = some p2 ∧
      p2.project_name = (jget d "project_name").getD p.project_name ∧
      p2.project_status = (jget d "project_status").getD p.project_status := by
  have hidp := findProject_id hf
  have htr := reconcile_tracks (c := false) (d := d) hf hidp
  rw [processDoc_obj_found_update hpid ht hf]
  simp only
  refine ⟨_, htr, ?_, ?_⟩
  · have h := runM2Ms_scalarsOf d relOrder (savePhase d p s).1 (savePhase d p s).2
    unfold scalarsOf at h
    simp only [Prod.mk.injEq] at h
    rw [h.2.1, savePhase_project_name]
  · have h := runM2Ms_scalarsOf d relOrder (savePhase d p s).1 (savePhase d p s).2
    unfold scalarsOf at h
    simp only [Prod.mk.injEq] at h
    rw [h.2.2.1, savePhase_project_status]

/-- C3 amended witness: an extraction carrying a new name but no status
key renames `P1` and keeps its stored status. -/
theorem C3_scalar_overwrite_iff_key_present_witness :
    ∃ p2, findProject (processDoc true (.obj [("project_id", Json.str "P1"),
        ("project_name", Json.str "New name")]) sampleStore).store
        (Json.str "P1") = some p2 ∧
      p2.project_name = (jget [("project_id", Json.str "P1"),
        ("project_name", Json.str "New name")] "project_name").getD
          sampleProject.project_name ∧
      p2.project_status = (jget [("project_id", Json.str "P1"),
        ("project_name", Json.str "New name")] "project_status").getD
          sampleProject.project_status :=
  C3_scalar_overwrite_iff_key_present
    (by decide : jget [("project_id", Json.str "P1"),
      ("project_name", Json.str "New name")] "project_id" =
        some (Json.str "P1"))
    (by decide) (by decide)

/-- C2: with update enabled on an existing project, each of the five
many-to-many relations is handled independently: a non-empty array value
replaces the project's entire set for that relation with exactly the
get-or-create results of the listed names (first occurrence order,
duplicates collapsed), while an absent key or an explicit empty array
leaves the existing set untouched.  The `iterOK` hypothesis says no
relation value is a truthy non-iterable (which would raise — claim C1's
territory). -/
theorem C2_relation_replace_nonempty_preserve_empty (r : M2MField)
    {d : List (String × Json)} {s : Store} {pid : Json} {p : Project}
    (hpid : jget d "project_id" = some pid) (ht : truthy pid = true)
    (hf : findProject s pid = some p)
    (hok : ∀ r2 : M2MField, iterOK (m2mVal d (relKey r2))) :
    ∃ p2, findProject (processDoc true (.obj d) s).store pid = some p2 ∧
      (∀ l, jget d (relKey r) = some (.arr l) → l ≠ [] →
        relSet r p2 = l.foldl m2mAdd []) ∧
      ((jget d (relKey r) = none ∨ jget d (relKey r) = some (.arr [])) →
        relSet r p2 = relSet r p) := by
  have hidp := findProject_id hf
  have htr := reconcile_tracks (c := false) (d := d) hf hidp
  rw [processDoc_obj_found_update hpid ht hf]
  simp only
  have hrin : r ∈ relOrder := by cases r <;> simp [relOrder]
  have hchar := runM2Ms_char d relOrder (savePhase d p s).1 (savePhase d p s).2
    (by decide) hrin (fun r2 _ => hok r2)
  refine ⟨_, htr, ?_, ?_⟩
  · intro l hl hlne
    have hval : m2mVal d (relKey r) = .arr l := by
      unfold m2mVal
      rw [hl]
      rfl
    have htv : truthy (m2mVal d (relKey r)) = true := by
      rw [hval]
      simpa [truthy] using hlne
    have hit : pyIter (m2mVal d (relKey r)) = some l := by rw [hval]; rfl
    rw [hchar.1, if_pos htv, hit]
    rfl
  · intro hl
    have htv : truthy (m2mVal d (relKey r)) = false := by
      rcases hl with hl | hl
      · unfold m2mVal
        rw [hl]
        rfl
      · unfold m2mVal
        rw [hl]
        rfl
    rw [hchar.1, if_neg (by simp [htv]), savePhase_relSet]

/-- C2 witness: `deliverables: ["C"]` replaces the stored set `{A, B}`
of `P1` with exactly `{C}`, while `ingredients` — absent from the
extraction — stays untouched. -/
theorem C2_relation_replace_nonempty_preserve_empty_witness :
    ∃ p2, findProject (processDoc true (.obj [("project_id", Json.str "P1"),
        ("deliverables", Json.arr [Json.str "C"])]) sampleStore).store
        (Json.str "P1") = some p2 ∧
      (∀ l, jget [("project_id", Json.str "P1"),
          ("deliverables", Json.arr [Json.str "C"])] "deliverables" =
            some (.arr l) → l ≠ [] →
        relSet .deliverables p2 = l.foldl m2mAdd []) ∧
      ((jget [("project_id", Json.str "P1"),
          ("deliverables", Json.arr [Json.str "C"])] "deliverables" = none ∨
        jget [("project_id", Json.str "P1"),
          ("deliverables", Json.arr [Json.str "C"])] "deliverables" =
            some (.arr [])) →
        relSet .deliverables p2 = relSet .deliverables sampleProject) :=
  C2_relation_replace_nonempty_preserve_empty .deliverables
    (by decide : jget [("project_id", Json.str "P1"),
      ("deliverables", Json.arr [Json.str "C"])] "project_id" =
        some (Json.str "P1"))
    (by decide) (by decide) (by decide)

/-- C4 counterexample: the claim says an array containing only
non-strings is treated as absent, causing no lookup-entity creation and
no relation change; but `deliverables: [42]` is truthy, so the code
clears the relation and get-or-creates a `Deliverable` row keyed by the
non-string value `42`, linking it to the project. -/
theorem C4_nonstring_array_counterexample :
    (processDoc true (.obj [("project_id", Json.str "P4"),
        ("deliverables", Json.arr [Json.num 42])]) emptyStore).store.deliverables =
      [Json.num 42] ∧
    (findProject (processDoc true (.obj [("project_id", Json.str "P4"),
        ("deliverables", Json.arr [Json.num 42])]) emptyStore).store
      (Json.str "P4")).map Project.deliverables = some [Json.num 42] := by
  refine ⟨by decide, ?_⟩
  decide

/-- C4 amended: for an existing project with update enabled, a non-empty
array value for a multi-valued field — whatever the types of its
elements — replaces the relation with get-or-create results for every
element (non-string elements are kept, not dropped, and create lookup
rows); an absent key, a `null`, or an empty array causes no
lookup-entity creation and no change to that relation.  (A truthy
non-iterable value instead raises mid-reconciliation, which is claim
C1's territory; the `iterOK` hypothesis excludes it.) -/
theorem C4_truthy_arrays_iterated_falsy_untouched (r : M2MField)
    {d : List (String × Json)} {s : Store} {pid : Json} {p : Project}
    (hpid : jget d "project_id" = some pid) (ht : truthy pid = true)
    (hf : findProject s pid = some p)
    (hok : ∀ r2 : M2MField, iterOK (m2mVal d (relKey r2))) :
    ∃ p2, findProject (processDoc true (.obj d) s).store pid = some p2 ∧
      (∀ l, jget d (relKey r) = some (.arr l) → l ≠ [] →
        relSet r p2 = l.foldl m2mAdd [] ∧
        relTbl r (processDoc true (.obj d) s).store =
          l.foldl getOrCreateName (relTbl r s)) ∧
      ((jget d (relKey r) = none ∨ jget d (relKey r) = some Json.null ∨
          jget d (relKey r) = some (.arr [])) →
        relSet r p2 = relSet r p ∧
        relTbl r (processDoc true (.obj d) s).store = relTbl r s) := by
  have hidp := findProject_id hf
  have htr := reconcile_tracks (c := false) (d := d) hf hidp
  rw [processDoc_obj_found_update hpid ht hf]
  simp only
  have hrin : r ∈ relOrder := by cases r <;> simp [relOrder]
  have hchar := runM2Ms_char d relOrder (savePhase d p s).1 (savePhase d p s).2
    (by decide) hrin (fun r2 _ => hok r2)
  have hstore : (reconcile d p s false).store =
      (runM2Ms d relOrder (savePhase d p s).1 (savePhase d p s).2).2.2 :=
    reconcile_store d p s false
  refine ⟨_, htr, ?_, ?_⟩
  · intro l hl hlne
    have hval : m2mVal d (relKey r) = .arr l := by
      unfold m2mVal
      rw [hl]
      rfl
    have htv : truthy (m2mVal d (relKey r)) = true := by
      rw [hval]
      simpa [truthy] using hlne
    have hit : pyIter (m2mVal d (relKey r)) = some l := by rw [hval]; rfl
    constructor
    · rw [hchar.1, if_pos htv, hit]
      rfl
    · rw [hstore, hchar.2, if_pos htv, hit, savePhase_relTbl]
      rfl
  · intro hl
    have htv : truthy (m2mVal d (relKey r)) = false := by
      rcases hl with hl | hl | hl <;>
        · unfold m2mVal
          rw [hl]
          rfl
    constructor
    · rw [hchar.1, if_neg (by simp [htv]), savePhase_relSet]
    · rw [hstore, hchar.2, if_neg (by simp [htv]), savePhase_relTbl]

/-- C4 amended witness: `therapeutic_areas: [7, "Oncology"]` on `P1`
replaces the (empty) set with rows for `7` and `"Oncology"`, creating a
lookup row keyed by the non-string `7`; the absent `demographics` key
changes nothing. -/
theorem C4_truthy_arrays_iterated_falsy_untouched_witness :
    ∃ p2, findProject (processDoc true (.obj [("project_id", Json.str "P1"),
        ("therapeutic_areas", Json.arr [Json.num 7, Json.str "Oncology"])])
        sampleStore).store (Json.str "P1") = some p2 ∧
      (∀ l, jget [("project_id", Json.str "P1"),
          ("therapeutic_areas", Json.arr [Json.num 7, Json.str "Oncology"])]
          (relKey .therapeuticAreas) = some (.arr l) → l ≠ [] →
        relSet .therapeuticAreas p2 = l.foldl m2mAdd [] ∧
        relTbl .therapeuticAreas (processDoc true
          (.obj [("project_id", Json.str "P1"),
            ("therapeutic_areas", Json.arr [Json.num 7, Json.str "Oncology"])])
          sampleStore).store =
          l.foldl getOrCreateName (relTbl .therapeuticAreas sampleStore)) ∧
      ((jget [("project_id", Json.str "P1"),
          ("therapeutic_areas", Json.arr [Json.num 7, Json.str "Oncology"])]
          (relKey .therapeuticAreas) = none ∨
        jget [("project_id", Json.str "P1"),
          ("therapeutic_areas", Json.arr [Json.num 7, Json.str "Oncology"])]
          (relKey .therapeuticAreas) = some Json.null ∨
        jget [("project_id", Json.str "P1"),
          ("therapeutic_areas", Json.arr [Json.num 7, Json.str "Oncology"])]
          (relKey .therapeuticAreas) = some (.arr [])) →
        relSet .therapeuticAreas p2 = relSet .therapeuticAreas sampleProject ∧
        relTbl .therapeuticAreas (processDoc true
          (.obj [("project_id", Json.str "P1"),
            ("therapeutic_areas", Json.arr [Json.num 7, Json.str "Oncology"])])
          sampleStore).store = relTbl .therapeuticAreas sampleStore) :=
  C4_truthy_arrays_iterated_falsy_untouched .therapeuticAreas
    (by decide : jget [("project_id", Json.str "P1"),
      ("therapeutic_areas", Json.arr [Json.num 7, Json.str "Oncology"])]
        "project_id" = some (Json.str "P1"))
    (by decide) (by decide) (by decide)

/-! ### Frames for lookups of other projects, and the sponsor table -/

theorem m2mStep_findProject_ne {pid : Json} (d : List (String × Json))
    (r : M2MField) (p : Project) (s : Store) (hne : p.project_id ≠ pid) :
    findProject (m2mStep d r p s).2.2 pid = findProject s pid := by
  unfold m2mStep
  simp only
  rw [findProject_updateProject_ne _ _ (by rw [setRel_project_id]; exact hne)]
  unfold findProject
  rw [projects_setTbl]

theorem runM2Ms_findProject_ne {pid : Json} (d : List (String × Json)) :
    ∀ (rs : List M2MField) (p : Project) (s : Store), p.project_id ≠ pid →
      findProject (runM2Ms d rs p s).2.2 pid = findProject s pid := by
  intro rs
  induction rs with
  | nil => intro p s _; rfl
  | cons r rs ih =>
      intro p s hne
      rw [runM2Ms_cons]
      by_cases h : (m2mStep d r p s).1 = true
      · simp only [h, if_true]
        exact m2mStep_findProject_ne d r p s hne
      · have h2 : (m2mStep d r p s).1 = false := eq_false_of_ne_true h
        simp only [h2, Bool.false_eq_true, if_false]
        rw [ih _ _ (by rw [m2mStep_project_id]; exact hne)]
        exact m2mStep_findProject_ne d r p s hne

theorem savePhase_findProject_ne {pid : Json} (d : List (String × Json))
    (p : Project) (s : Store) (hne : p.project_id ≠ pid) :
    findProject (savePhase d p s).2 pid = findProject s pid := by
  unfold savePhase
  simp only
  exact findProject_updateProject_ne _ _ hne

theorem reconcile_findProject_ne {pid : Json} (d : List (String × Json))
    (p : Project) (s : Store) (c : Bool) (hne : p.project_id ≠ pid) :
    findProject (reconcile d p s c).store pid = findProject s pid := by
  rw [reconcile_store]
  rw [runM2Ms_findProject_ne _ _ _ _ (by rw [savePhase_project_id]; exact hne)]
  exact savePhase_findProject_ne d p s hne

theorem findProject_append_ne {pid : Json} (s : Store) (p : Project)
    (hne : p.project_id ≠ pid) :
    findProject { s with projects := s.projects ++ [p] } pid =
      findProject s pid := by
  unfold findProject
  rw [List.find?_append]
  have : List.find? (fun q => q.project_id == pid) [p] = none := by
    simp [List.find?_cons, hne]
  rw [this, Option.or_none]

/-- Processing one document never touches the stored row of a project
with a different id. -/
theorem processDoc_findProject_frame {d : List (String × Json)} {s : Store}
    {pid2 pid : Json} (u : Bool)
    (hpid : jget d "project_id" = some pid2) (hne : pid2 ≠ pid) :
    findProject (processDoc u (.obj d) s).store pid = findProject s pid := by
  show findProject (processObj u d s).store pid = _
  unfold processObj
  rw [hpid]
  by_cases ht : truthy pid2 = true
  · simp only [ht, if_true]
    rcases hf : findProject s pid2 with _ | p
    · simp only
      rw [reconcile_findProject_ne _ _ _ _ (by exact hne)]
      exact findProject_append_ne s _ hne
    · by_cases hu : u = true
      · simp only [hu, if_true]
        exact reconcile_findProject_ne _ _ _ _
          (by rw [findProject_id hf]; exact hne)
      · simp only [eq_false_of_ne_true hu, Bool.false_eq_true, if_false]
  · simp only [eq_false_of_ne_true ht, Bool.false_eq_true, if_false]

/-- Selector for the three single-valued (many-to-one) lookup
references, each with its extraction key (lines 163–175). -/
inductive FKField where
  | sponsor | responsibleParty | routeOfAdmin
deriving Repr, DecidableEq, Fintype

def fkKey : FKField → String
  | .sponsor => "sponsor_name"
  | .responsibleParty => "responsible_party"
  | .routeOfAdmin => "route_of_admin"

def fkRef : FKField → Project → Option Json
  | .sponsor, p => p.sponsor
  | .responsibleParty, p => p.responsible_party
  | .routeOfAdmin, p => p.route_of_admin

def fkTbl : FKField → Store → List Json
  | .sponsor, s => s.sponsors
  | .responsibleParty, s => s.responsible_parties
  | .routeOfAdmin, s => s.routes_of_admin

theorem savePhase_fkRef (t : FKField) (d : List (String × Json))
    (p : Project) (s : Store) :
    fkRef t (savePhase d p s).1 =
      (fkStep (jget d (fkKey t)) (fkTbl t s) (fkRef t p)).1 := by
  cases t
  · exact savePhase_sponsor d p s
  · exact savePhase_party d p s
  · exact savePhase_route d p s

theorem savePhase_fkTbl (t : FKField) (d : List (String × Json))
    (p : Project) (s : Store) :
    fkTbl t (savePhase d p s).2 =
      (fkStep (jget d (fkKey t)) (fkTbl t s) (fkRef t p)).2 := by
  cases t
  · exact savePhase_sponsors d p s
  · exact savePhase_parties d p s
  · exact savePhase_routes d p s

theorem runM2Ms_fkRef (t : FKField) (d : List (String × Json))
    (rs : List M2MField) (p : Project) (s : Store) :
    fkRef t (runM2Ms d rs p s).2.1 = fkRef t p := by
  have h := runM2Ms_scalarsOf d rs p s
  unfold scalarsOf at h
  simp only [Prod.mk.injEq] at h
  cases t
  · exact h.2.2.2.1
  · exact h.2.2.2.2.1
  · exact h.2.2.2.2.2

theorem runM2Ms_fkTbl (t : FKField) (d : List (String × Json))
    (rs : List M2MField) (p : Project) (s : Store) :
    fkTbl t (runM2Ms d rs p s).2.2 = fkTbl t s := by
  have h := runM2Ms_fkTablesOf d rs p s
  unfold fkTablesOf at h
  simp only [Prod.mk.injEq] at h
  cases t
  · exact h.1
  · exact h.2.1
  · exact h.2.2

/-- Get-or-create never introduces a duplicate of a name that is stored
at most once. -/
theorem count_getOrCreateName_le {tbl : List Json} {v : Json} (w : Json)
    (h : tbl.count v ≤ 1) : (getOrCreateName tbl w).count v ≤ 1 := by
  unfold getOrCreateName
  split
  · exact h
  · rename_i hw
    rw [List.count_append]
    by_cases hwv : w = v
    · subst hwv
      rw [List.count_eq_zero.mpr hw]
      simp
    · have : List.count v [w] = 0 := by
        simp [List.count_singleton', hwv]
      rw [this]
      simpa using h

theorem count_foldl_getOrCreateName_le {v : Json} :
    ∀ (l tbl : List Json), tbl.count v ≤ 1 →
      (l.foldl getOrCreateName tbl).count v ≤ 1 := by
  intro l
  induction l with
  | nil => intro tbl h; exact h
  | cons x xs ih => intro tbl h; exact ih _ (count_getOrCreateName_le x h)

/-- The many-to-many `.add` and the lookup get-or-create are the same
append-if-new operation on lists. -/
theorem m2mAdd_eq_getOrCreateName : m2mAdd = getOrCreateName := rfl

/-- A document with a fresh id whose `k`-reference names `v` creates the
project, get-or-creates the row `v` in that single-valued lookup table,
and sets the project's reference. -/
theorem processDoc_fk_created {d : List (String × Json)} {s : Store}
    {pid v : Json} (t : FKField) (u : Bool)
    (hpid : jget d "project_id" = some pid) (ht : truthy pid = true)
    (hf : findProject s pid = none)
    (hs : jget d (fkKey t) = some v) (htv : truthy v = true) :
    fkTbl t (processDoc u (.obj d) s).store = getOrCreateName (fkTbl t s) v ∧
    (findProject (processDoc u (.obj d) s).store pid).map (fkRef t) =
      some (some v) := by
  rw [processDoc_obj_notfound u hpid ht hf]
  simp only
  have hid0 : (newProject d pid).project_id = pid := rfl
  have hfind2 : findProject
      { s with projects := s.projects ++ [newProject d pid] } pid =
      some (newProject d pid) := findProject_append hf hid0
  have htbl0 : fkTbl t { s with projects := s.projects ++ [newProject d pid] } =
      fkTbl t s := by
    cases t <;> rfl
  constructor
  · rw [reconcile_store, runM2Ms_fkTbl, savePhase_fkTbl, htbl0, hs]
    simp [fkStep, htv]
  · have htr := reconcile_tracks (c := true) (d := d) hfind2 hid0
    rw [htr]
    simp only [Option.map_some']
    rw [runM2Ms_fkRef, savePhase_fkRef, htbl0, hs]
    simp [fkStep, htv]

/-- A document with a fresh id whose relation `r` lists the name `v`
creates the project, get-or-creates a row for every listed element into
relation `r`'s lookup table, and links `v` into the project's set. -/
theorem processDoc_m2m_created {d : List (String × Json)} {s : Store}
    {pid v : Json} {l : List Json} (r : M2MField) (u : Bool)
    (hpid : jget d "project_id" = some pid) (ht : truthy pid = true)
    (hf : findProject s pid = none)
    (hl : jget d (relKey r) = some (.arr l)) (hv : v ∈ l)
    (hok : ∀ r2 : M2MField, iterOK (m2mVal d (relKey r2))) :
    relTbl r (processDoc u (.obj d) s).store =
      l.foldl getOrCreateName (relTbl r s) ∧
    ∃ p2, findProject (processDoc u (.obj d) s).store pid = some p2 ∧
      v ∈ relSet r p2 := by
  rw [processDoc_obj_notfound u hpid ht hf]
  simp only
  have hid0 : (newProject d pid).project_id = pid := rfl
  have hfind2 : findProject
      { s with projects := s.projects ++ [newProject d pid] } pid =
      some (newProject d pid) := findProject_append hf hid0
  have hlne : l ≠ [] := by
    intro h
    subst h
    simp at hv
  have hval : m2mVal d (relKey r) = .arr l := by
    unfold m2mVal
    rw [hl]
    rfl
  have htv : truthy (m2mVal d (relKey r)) = true := by
    rw [hval]
    simpa [truthy] using hlne
  have hit : pyIter (m2mVal d (relKey r)) = some l := by rw [hval]; rfl
  have hrin : r ∈ relOrder := by cases r <;> simp [relOrder]
  have hchar := runM2Ms_char d relOrder
    (savePhase d (newProject d pid)
      { s with projects := s.projects ++ [newProject d pid] }).1
    (savePhase d (newProject d pid)
      { s with projects := s.projects ++ [newProject d pid] }).2
    (by decide) hrin (fun r2 _ => hok r2)
  have htbl0 : relTbl r { s with projects := s.projects ++ [newProject d pid] } =
      relTbl r s := by
    cases r <;> rfl
  constructor
  · rw [reconcile_store, hchar.2, if_pos htv, hit, savePhase_relTbl, htbl0]
    rfl
  · have htr := reconcile_tracks (c := true) (d := d) hfind2 hid0
    refine ⟨_, htr, ?_⟩
    have hfold : ((pyIter (m2mVal d (relKey r))).getD []).foldl m2mAdd [] =
        l.foldl getOrCreateName [] := by
      rw [hit, m2mAdd_eq_getOrCreateName]
      rfl
    rw [hchar.1, if_pos htv, hfold]
    exact mem_foldl_getOrCreateName [] hv

/-- The kinds of lookup-entity reference a document can make — one of
the three single-valued references or one of the five many-to-many
relations; together these address all eight lookup tables. -/
inductive LookupKind where
  | fk (t : FKField)
  | m2m (r : M2MField)

def lookupTbl : LookupKind → Store → List Json
  | .fk t, s => fkTbl t s
  | .m2m r, s => relTbl r s

/-- The extraction `d` references the lookup name `v` through `k`. -/
def refersTo (k : LookupKind) (d : List (String × Json)) (v : Json) : Prop :=
  match k with
  | .fk t => jget d (fkKey t) = some v ∧ truthy v = true
  | .m2m r => ∃ l, jget d (relKey r) = some (.arr l) ∧ v ∈ l

/-- The stored project `p` references the lookup row named `v` through
`k`. -/
def projRefers (k : LookupKind) (p : Project) (v : Json) : Prop :=
  match k with
  | .fk t => fkRef t p = some v
  | .m2m r => v ∈ relSet r p

/-- C8 counterexample: two documents whose sponsor names differ only in
case ("Acme" vs "ACME") produce two distinct sponsor rows, because
`get_or_create(name=...)` matches the name exactly — no case or
whitespace normalization is applied anywhere. -/
theorem C8_case_variant_creates_two_rows :
    (processDoc true (.obj [("project_id", Json.str "Q2"),
        ("sponsor_name", Json.str "ACME")])
      (processDoc true (.obj [("project_id", Json.str "Q1"),
        ("sponsor_name", Json.str "Acme")])
        emptyStore).store).store.sponsors =
      [Json.str "Acme", Json.str "ACME"] := by
  decide

/-- C8 amended: for every one of the eight lookup tables — the three
single-valued references and the five many-to-many dictionaries — two
documents referencing the byte-identical lookup-entity name result in
exactly one stored row for that name, referenced by both projects (case
or whitespace variants are distinct names and create distinct rows, see
the counterexample). -/
theorem C8_exact_name_single_lookup_row (k : LookupKind)
    {d1 d2 : List (String × Json)} {s : Store} {pid1 pid2 v : Json}
    (u1 u2 : Bool)
    (h1 : jget d1 "project_id" = some pid1) (ht1 : truthy pid1 = true)
    (h2 : jget d2 "project_id" = some pid2) (ht2 : truthy pid2 = true)
    (hne : pid1 ≠ pid2)
    (hf1 : findProject s pid1 = none) (hf2 : findProject s pid2 = none)
    (hr1 : refersTo k d1 v) (hr2 : refersTo k d2 v)
    (hok1 : ∀ r2 : M2MField, iterOK (m2mVal d1 (relKey r2)))
    (hok2 : ∀ r2 : M2MField, iterOK (m2mVal d2 (relKey r2)))
    (hvnot : v ∉ lookupTbl k s) :
    (lookupTbl k (processDoc u2 (.obj d2)
        (processDoc u1 (.obj d1) s).store).store).count v = 1 ∧
    (∃ q1, findProject (processDoc u2 (.obj d2)
        (processDoc u1 (.obj d1) s).store).store pid1 = some q1 ∧
      projRefers k q1 v) ∧
    (∃ q2, findProject (processDoc u2 (.obj d2)
        (processDoc u1 (.obj d1) s).store).store pid2 = some q2 ∧
      projRefers k q2 v) := by
  have hf2b : findProject (processDoc u1 (.obj d1) s).store pid2 = none := by
    rw [processDoc_findProject_frame u1 h1 hne]
    exact hf2
  have hframe2 : findProject (processDoc u2 (.obj d2)
      (processDoc u1 (.obj d1) s).store).store pid1 =
      findProject (processDoc u1 (.obj d1) s).store pid1 :=
    processDoc_findProject_frame u2 h2 (fun h => hne h.symm)
  cases k with
  | fk t =>
      obtain ⟨hs1, htv⟩ := hr1
      obtain ⟨hs2, _⟩ := hr2
      have hvnot2 : v ∉ fkTbl t s := hvnot
      have hc1 := processDoc_fk_created t u1 h1 ht1 hf1 hs1 htv
      have hc2 := processDoc_fk_created t u2 h2 ht2 hf2b hs2 htv
      have e1 : fkTbl t (processDoc u1 (.obj d1) s).store = fkTbl t s ++ [v] := by
        rw [hc1.1]
        unfold getOrCreateName
        rw [if_neg hvnot2]
      have e2 : fkTbl t (processDoc u2 (.obj d2)
          (processDoc u1 (.obj d1) s).store).store = fkTbl t s ++ [v] := by
        rw [hc2.1, e1]
        exact getOrCreateName_of_mem (by simp)
      refine ⟨?_, ?_, ?_⟩
      · show (fkTbl t _).count v = 1
        rw [e2, List.count_append, List.count_eq_zero.mpr hvnot2]
        simp
      · have href := hc1.2
        rw [hframe2]
        rcases hq : findProject (processDoc u1 (.obj d1) s).store pid1 with _ | q1
        · rw [hq] at href
          simp at href
        · rw [hq] at href
          simp only [Option.map_some'] at href
          exact ⟨q1, rfl, Option.some.inj href⟩
      · have href := hc2.2
        rcases hq : findProject (processDoc u2 (.obj d2)
            (processDoc u1 (.obj d1) s).store).store pid2 with _ | q2
        · rw [hq] at href
          simp at href
        · rw [hq] at href
          simp only [Option.map_some'] at href
          exact ⟨q2, rfl, Option.some.inj href⟩
  | m2m r =>
      obtain ⟨l1, hl1, hv1⟩ := hr1
      obtain ⟨l2, hl2, hv2⟩ := hr2
      have hvnot2 : v ∉ relTbl r s := hvnot
      have hc1 := processDoc_m2m_created r u1 h1 ht1 hf1 hl1 hv1 hok1
      have hc2 := processDoc_m2m_created r u2 h2 ht2 hf2b hl2 hv2 hok2
      refine ⟨?_, ?_, ?_⟩
      · show (relTbl r _).count v = 1
        rw [hc2.1, hc1.1]
        have hle : (l2.foldl getOrCreateName
            (l1.foldl getOrCreateName (relTbl r s))).count v ≤ 1 :=
          count_foldl_getOrCreateName_le _ _
            (count_foldl_getOrCreateName_le _ _
              (by rw [List.count_eq_zero.mpr hvnot2]; exact Nat.zero_le 1))
        have hmem : v ∈ l2.foldl getOrCreateName
            (l1.foldl getOrCreateName (relTbl r s)) :=
          mem_foldl_getOrCreateName_mono l2
            (mem_foldl_getOrCreateName _ hv1)
        have hpos : 0 < (l2.foldl getOrCreateName
            (l1.foldl getOrCreateName (relTbl r s))).count v :=
          List.count_pos_iff.mpr hmem
        omega
      · rw [hframe2]
        exact hc1.2
      · exact hc2.2

/-- C8 amended witness, exercising a many-to-many dictionary: two fresh
projects both listing ingredient "Acme" share a single ingredient row,
linked into both relation sets. -/
theorem C8_exact_name_single_lookup_row_witness :
    (lookupTbl (.m2m .ingredients) (processDoc true
        (.obj [("project_id", Json.str "Q2"),
          ("ingredients", Json.arr [Json.str "Acme"])])
      (processDoc true (.obj [("project_id", Json.str "Q1"),
          ("ingredients", Json.arr [Json.str "Acme"])])
        emptyStore).store).store).count (Json.str "Acme") = 1 ∧
    (∃ q1, findProject (processDoc true (.obj [("project_id", Json.str "Q2"),
          ("ingredients", Json.arr [Json.str "Acme"])])
      (processDoc true (.obj [("project_id", Json.str "Q1"),
          ("ingredients", Json.arr [Json.str "Acme"])])
        emptyStore).store).store (Json.str "Q1") = some q1 ∧
      projRefers (.m2m .ingredients) q1 (Json.str "Acme")) ∧
    (∃ q2, findProject (processDoc true (.obj [("project_id", Json.str "Q2"),
          ("ingredients", Json.arr [Json.str "Acme"])])
      (processDoc true (.obj [("project_id", Json.str "Q1"),
          ("ingredients", Json.arr [Json.str "Acme"])])
        emptyStore).store).store (Json.str "Q2") = some q2 ∧
      projRefers (.m2m .ingredients) q2 (Json.str "Acme")) :=
  C8_exact_name_single_lookup_row (.m2m .ingredients) true true
    (by decide : jget [("project_id", Json.str "Q1"),
      ("ingredients", Json.arr [Json.str "Acme"])] "project_id" =
        some (Json.str "Q1"))
    (by decide)
    (by decide : jget [("project_id", Json.str "Q2"),
      ("ingredients", Json.arr [Json.str "Acme"])] "project_id" =
        some (Json.str "Q2"))
    (by decide) (by decide) (by decide) (by decide)
    ⟨[Json.str "Acme"], by decide, by decide⟩
    ⟨[Json.str "Acme"], by decide, by decide⟩
    (by decide) (by decide) (by decide)

/-! ### A concrete batch exercising the failure path (claims C1 and C9) -/

/-- Extraction for the first file: a valid id, but `deliverables` is the
number `1` — truthy, so the relation block runs, yet not iterable, so
`for item_name in deliverables_list` raises `TypeError` after the
project row was already created. -/
def c1DocA : Json := .obj [("project_id", .str "P1"), ("deliverables", .num 1)]

/-- Extraction for the second file: a well-formed record. -/
def c1DocB : Json := .obj [("project_id", .str "P2"), ("project_name", .str "N2")]

def c1Loads : String → Option Json := fun t =>
  if t = "JA" then some c1DocA else if t = "JB" then some c1DocB else none

def c1Service : String → Option (List (String × String)) := fun t =>
  if t = "TA" then some [("response", "JA")] else
  if t = "TB" then some [("response", "JB")] else none

def c1FileA : BatchFile := ⟨"a.docx", some "TA"⟩

def c1FileB : BatchFile := ⟨"b.docx", some "TB"⟩

/-- The project row the failing document leaves behind. -/
def c1Proj1 : Project :=
  { project_id := .str "P1", project_name := .str "",
    project_status := .str "", sponsor := none, responsible_party := none,
    route_of_admin := none, deliverables := [], therapeutic_areas := [],
    ingredient_categories := [], ingredients := [], demographics := [] }

def c1Proj2 : Project :=
  { project_id := .str "P2", project_name := .str "N2",
    project_status := .str "", sponsor := none, responsible_party := none,
    route_of_admin := none, deliverables := [], therapeutic_areas := [],
    ingredient_categories := [], ingredients := [], demographics := [] }

def c1Store1 : Store := { emptyStore with projects := [c1Proj1] }

def c1Store2 : Store := { emptyStore with projects := [c1Proj1, c1Proj2] }

def c1Msgs1 : List Msg :=
  [.startingRun, .processingDocx, .extracting, .createdProject, .databaseError]

def c1Msgs2 : List Msg := c1Msgs1 ++
  [.processingDocx, .extracting, .createdProject, .successfullySaved]

theorem c1_step1 :
    processFile c1Loads c1Service true (emptyStore, [Msg.startingRun]) c1FileA =
      (c1Store1, c1Msgs1) := by
  rw [processFile_doc c1Loads c1Service true _ (by decide) (rfl) (by decide)
    (by decide : call_phi3_for_extraction c1Loads c1Service "TA" = some c1DocA)
    (by decide)]
  decide

theorem c1_step2 :
    processFile c1Loads c1Service true (c1Store1, c1Msgs1) c1FileB =
      (c1Store2, c1Msgs2) := by
  rw [processFile_doc c1Loads c1Service true _ (by decide) (rfl) (by decide)
    (by decide : call_phi3_for_extraction c1Loads c1Service "TB" = some c1DocB)
    (by decide)]
  decide

theorem c1_run :
    handle c1Loads c1Service true [c1FileA, c1FileB] emptyStore =
      (c1Store2, c1Msgs2 ++ [Msg.processingComplete]) := by
  rw [handle_eq, List.foldl_cons, c1_step1, List.foldl_cons, c1_step2,
    List.foldl_nil]

/-- C1: the first document's reconciliation raises after its project row
was created (truthy non-iterable `deliverables`), yet the committed
state retains that row: `handle` is one `@transaction.atomic` unit and
the per-file `except` does no rollback, so the partial write survives —
while the loop does continue to the second file, which is processed
normally. -/
theorem C1_failed_doc_writes_retained_batch_continues :
    (handle c1Loads c1Service true [c1FileA, c1FileB] emptyStore).1.projects.map
        Project.project_id = [Json.str "P1", Json.str "P2"] ∧
    (handle c1Loads c1Service true [c1FileA, c1FileB] emptyStore).2 =
      [.startingRun, .processingDocx, .extracting, .createdProject,
       .databaseError, .processingDocx, .extracting, .createdProject,
       .successfullySaved, .processingComplete] := by
  rw [c1_run]
  exact ⟨by decide, by decide⟩

/-- C9 counterexample: one run fails a document, the other run processes
nothing, yet both emit the very same final summary message — the
constant "Processing complete." — so the summary carries no created,
updated, skipped, failed or ignored counts, and no counters exist in the
loop at all. -/
theorem C9_summary_carries_no_counts_counterexample :
    Msg.databaseError ∈
      (handle c1Loads c1Service true [c1FileA, c1FileB] emptyStore).2 ∧
    Msg.databaseError ∉ (handle c1Loads c1Service true [] emptyStore).2 ∧
    (handle c1Loads c1Service true [c1FileA, c1FileB] emptyStore).2.getLast? =
      (handle c1Loads c1Service true [] emptyStore).2.getLast? := by
  rw [c1_run]
  refine ⟨by decide, by decide, ?_⟩
  decide

/-- C9 amended: the orchestrator writes per-document outcome messages as
it goes but accumulates no outcome counts; every run's final summary is
the same constant "Processing complete." message, containing no counts. -/
theorem C9_final_summary_is_constant (loads : String → Option Json)
    (service : String → Option (List (String × String)))
    (u : Bool) (files : List BatchFile) (s : Store) :
    (handle loads service u files s).2.getLast? = some Msg.processingComplete := by
  rw [handle_eq]
  exact List.getLast?_concat _

/-- C10: when the model service's HTTP reply lacks the `"response"` key,
`call_phi3_for_extraction` falls back to the string `"\x7b\x7d"`, which
`json.loads` decodes to the empty object; and whenever the extraction
result is the (falsy) empty object, the file is reported as an
extraction failure — not a missing-identifier skip — the reconciler is
never invoked, and the store is unchanged. -/
theorem C10_missing_response_key_is_extraction_failure
    {loads : String → Option Json}
    {service : String → Option (List (String × String))}
    {f : BatchFile} {t : String} {rd : List (String × String)}
    (u : Bool) (acc : Store × List Msg)
    (hdocx : pyEndsWith (pyLower f.filename) ".docx" = true)
    (hraw : f.rawText = some t) (hne : ¬ t = "")
    (hloads : loads "\x7b\x7d" = some (.obj []))
    (hsvc : service (pyTake t 8000) = some rd) :
    (rd.find? (fun kv => kv.1 == "response") = none →
      call_phi3_for_extraction loads service t = some (.obj [])) ∧
    (call_phi3_for_extraction loads service t = some (.obj []) →
      processFile loads service u acc f =
        (acc.1, acc.2 ++ [.processingDocx, .extracting, .extractionFailed])) := by
  constructor
  · intro hnokey
    unfold call_phi3_for_extraction
    rw [hsvc]
    simp only [hnokey]
    simpa using hloads
  · intro hphi
    exact processFile_extract_falsy loads service u acc hdocx hraw hne hphi rfl

/-- C10 witness: a reply object without a `"response"` key, on a
non-empty docx text, with a `loads` oracle decoding `"\x7b\x7d"` to the
empty object. -/
theorem C10_missing_response_key_is_extraction_failure_witness :
    (([("status", "ok")] : List (String × String)).find?
        (fun kv => kv.1 == "response") = none →
      call_phi3_for_extraction
        (fun j => if j = "\x7b\x7d" then some (.obj []) else none)
        (fun q => if q = "T" then some [("status", "ok")] else none) "T" =
        some (.obj [])) ∧
    (call_phi3_for_extraction
        (fun j => if j = "\x7b\x7d" then some (.obj []) else none)
        (fun q => if q = "T" then some [("status", "ok")] else none) "T" =
        some (.obj []) →
      processFile (fun j => if j = "\x7b\x7d" then some (.obj []) else none)
        (fun q => if q = "T" then some [("status", "ok")] else none)
        true (emptyStore, []) ⟨"a.docx", some "T"⟩ =
        (emptyStore, [.processingDocx, .extracting, .extractionFailed])) := by
  have h := @C10_missing_response_key_is_extraction_failure
    (fun j => if j = "\x7b\x7d" then some (.obj []) else none)
    (fun q => if q = "T" then some [("status", "ok")] else none)
    ⟨"a.docx", some "T"⟩ "T" [("status", "ok")]
    true (emptyStore, []) (by decide) rfl (by decide) (by decide) (by decide)
  constructor
  · exact fun hk => h.1 hk
  · intro hphi
    have h2 := h.2 hphi
    simpa using h2
